import Mathlib

/-!
Verification of the softwerks/backgammon rules engine.

This file gives a shallow embedding, in Lean 4, of the Python sources
`backgammon/position.py`, `backgammon/match.py` and `backgammon/backgammon.py`
of the softwerks/backgammon repository, and proves (or refutes) the frozen
specification claims about them.

Conventions of the embedding:
* Python `int` becomes `Int` (board points, bar/off counters) or `Nat`
  (scores, dice, cube value, indices) according to the values the source
  actually stores there.
* Bit strings (`"0"`/`"1"` Python strings used by the two codecs) become
  `List Bool` with `true` standing for the character `1`.
* Base64 is modelled arithmetically on byte values, group by group, exactly
  following RFC 4648 as the Python `base64` module implements it for clean
  inputs (all characters from the alphabet, correct `=` padding).  The
  Python decoder additionally discards non-alphabet characters before
  decoding; the model instead rejects such strings, a difference that is
  never exercised by the theorems below (all decoded strings are clean).
* Exceptions become `Except` results.  Engine operations return
  `Except (String × Game) Game`: an error carries the message of the raised
  `BackgammonError` together with the state of the engine object at the
  moment of the raise, which embeds the Python semantics of an exception
  propagating out of a mutating method.
* Randomness (`random.SystemRandom().randrange`) is modelled by explicit
  oracle arguments: `roll` receives the drawn pair, `first_roll` consumes a
  stream of pairs (the stream running out models the event, impossible for
  a fair die, that the re-roll loop never terminates).
* Python's `hash` used for play deduplication is modelled by the injective
  canonical 80-bit position key of the codec.
-/

namespace Bg

/-! ## Bit strings

`natToBitsLE n w` is the `w`-bit little-endian (least significant first)
binary expansion of `n`; `bitsToNatLE` is its inverse.  These model the
Python idioms `format(b, "08b")[::-1]` and `int(s[::-1], 2)` used by both
codecs. -/

def natToBitsLE : Nat → Nat → List Bool
  | _, 0 => []
  | n, w + 1 => (n % 2 = 1) :: natToBitsLE (n / 2) w

def bitsToNatLE : List Bool → Nat
  | [] => 0
  | b :: t => (if b then 1 else 0) + 2 * bitsToNatLE t

theorem length_natToBitsLE (n w : Nat) : (natToBitsLE n w).length = w := by
  induction w generalizing n with
  | zero => rfl
  | succ w ih => simp [natToBitsLE, ih]

theorem bitsToNatLE_lt (l : List Bool) : bitsToNatLE l < 2 ^ l.length := by
  induction l with
  | nil => simp [bitsToNatLE]
  | cons b t ih =>
    simp only [bitsToNatLE, List.length_cons, pow_succ]
    cases b <;> simp <;> omega

theorem bitsToNatLE_natToBitsLE {n w : Nat} (h : n < 2 ^ w) :
    bitsToNatLE (natToBitsLE n w) = n := by
  induction w generalizing n with
  | zero => simp at h; simp [h, natToBitsLE, bitsToNatLE]
  | succ w ih =>
    have h2 : n / 2 < 2 ^ w := by
      rw [pow_succ] at h; omega
    simp only [natToBitsLE, bitsToNatLE, ih h2]
    rcases Nat.mod_two_eq_zero_or_one n with h0 | h1
    · simp [h0]; omega
    · simp [h1]; omega

theorem natToBitsLE_bitsToNatLE (l : List Bool) :
    natToBitsLE (bitsToNatLE l) l.length = l := by
  induction l with
  | nil => rfl
  | cons b t ih =>
    simp only [bitsToNatLE, List.length_cons, natToBitsLE]
    cases b
    · have hm : (0 + 2 * bitsToNatLE t) % 2 = 0 := by omega
      have hd : (0 + 2 * bitsToNatLE t) / 2 = bitsToNatLE t := by omega
      simp [hm, hd, ih]
    · have hm : (1 + 2 * bitsToNatLE t) % 2 = 1 := by omega
      have hd : (1 + 2 * bitsToNatLE t) / 2 = bitsToNatLE t := by omega
      simp [hm, hd, ih]

theorem natToBitsLE_zero (w : Nat) : natToBitsLE 0 w = List.replicate w false := by
  induction w with
  | zero => rfl
  | succ w ih => simp [natToBitsLE, ih, List.replicate]

theorem natToBitsLE_add_width {n a : Nat} (k : Nat) (h : n < 2 ^ a) :
    natToBitsLE n (a + k) = natToBitsLE n a ++ List.replicate k false := by
  induction a generalizing n with
  | zero =>
    interval_cases n
    simp [natToBitsLE, natToBitsLE_zero]
  | succ a ih =>
    have h2 : n / 2 < 2 ^ a := by rw [pow_succ] at h; omega
    simp only [Nat.succ_add, natToBitsLE, ih h2, List.cons_append]

/-! ## Byte packing

Both codecs regroup a bit string into bytes with
`key[i : i + 8][::-1]` parsed as a binary numeral, i.e. each 8-bit chunk is
read least-significant-bit-first; decoding turns every byte back into eight
bits with `format(b, "08b")[::-1]`. -/

def chunks8 (l : List Bool) : List (List Bool) :=
  if l = [] then [] else l.take 8 :: chunks8 (l.drop 8)
termination_by l.length
decreasing_by
  rename_i h
  have : l.length ≠ 0 := fun hl => h (List.eq_nil_of_length_eq_zero hl)
  simp [List.length_drop]
  omega

def bytesFromKey (l : List Bool) : List Nat :=
  (chunks8 l).map bitsToNatLE

def keyFromBytes (bytes : List Nat) : List Bool :=
  (bytes.map (fun b => natToBitsLE b 8)).flatten

/-- Number of `0` filler bits the byte regrouping appends to a bit string of
length `n`: the final chunk, when shorter than 8 bits, is parsed as if
zero-extended. -/
def padLen (n : Nat) : Nat := (8 - n % 8) % 8

theorem keyFromBytes_bytesFromKey (l : List Bool) :
    keyFromBytes (bytesFromKey l) = l ++ List.replicate (padLen l.length) false := by
  suffices H : ∀ n, ∀ l : List Bool, l.length = n →
      keyFromBytes (bytesFromKey l) = l ++ List.replicate (padLen l.length) false from
    H l.length l rfl
  intro n
  induction n using Nat.strong_induction_on with
  | _ n ih =>
  intro l hn
  by_cases hl : l = []
  · subst hl
    simp [bytesFromKey, keyFromBytes, chunks8, padLen]
  · rw [bytesFromKey, chunks8, if_neg hl]
    by_cases h8 : 8 ≤ l.length
    · -- full leading chunk of 8 bits
      have htk : (l.take 8).length = 8 := by simp [List.length_take]; omega
      have hdl : (l.drop 8).length = l.length - 8 := by simp
      have hrec := ih (l.length - 8) (by omega) (l.drop 8) hdl
      rw [bytesFromKey] at hrec
      simp only [List.map_cons, keyFromBytes, List.flatten_cons]
      rw [keyFromBytes] at hrec
      rw [hrec, hdl]
      have hfst : natToBitsLE (bitsToNatLE (l.take 8)) 8 = l.take 8 := by
        have h := natToBitsLE_bitsToNatLE (l.take 8)
        rwa [htk] at h
      rw [hfst]
      have hpad : padLen (l.length - 8) = padLen l.length := by
        simp only [padLen]
        omega
      rw [hpad, ← List.append_assoc, List.take_append_drop]
    · -- final short chunk
      push_neg at h8
      have htk : l.take 8 = l := List.take_of_length_le (by omega)
      have hdl : l.drop 8 = [] := List.drop_eq_nil_of_le (by omega)
      rw [htk, hdl, chunks8, if_pos rfl]
      simp only [List.map_cons, List.map_nil, keyFromBytes, List.flatten_cons,
        List.flatten_nil, List.append_nil]
      have hlt : bitsToNatLE l < 2 ^ l.length := bitsToNatLE_lt l
      have hw : (8 : Nat) = l.length + (8 - l.length) := by omega
      rw [hw, natToBitsLE_add_width _ hlt, natToBitsLE_bitsToNatLE]
      have hne : l.length ≠ 0 := fun hz => hl (List.eq_nil_of_length_eq_zero hz)
      have hpl : padLen l.length = 8 - l.length := by
        rw [padLen, Nat.mod_eq_of_lt (show l.length < 8 by omega)]
        exact Nat.mod_eq_of_lt (by omega)
      rw [hpl]

/-! ## Base64

`base64.b64encode` / `base64.b64decode` on byte lists, modelled
arithmetically group by group (RFC 4648, standard alphabet, strict `=`
padding).  Characters outside the alphabet are rejected where Python's
lenient decoder would discard them; no theorem below depends on that
region of the input space. -/

def b64alphabet : List Char :=
  ['A', 'B', 'C', 'D', 'E', 'F', 'G', 'H', 'I', 'J', 'K', 'L', 'M',
   'N', 'O', 'P', 'Q', 'R', 'S', 'T', 'U', 'V', 'W', 'X', 'Y', 'Z',
   'a', 'b', 'c', 'd', 'e', 'f', 'g', 'h', 'i', 'j', 'k', 'l', 'm',
   'n', 'o', 'p', 'q', 'r', 's', 't', 'u', 'v', 'w', 'x', 'y', 'z',
   '0', '1', '2', '3', '4', '5', '6', '7', '8', '9', '+', '/']

def b64char (n : Nat) : Char := b64alphabet.getD n '?'

def b64index (c : Char) : Option Nat :=
  let i := b64alphabet.indexOf c
  if i < 64 then some i else none

def b64encodeBytes : List Nat → List Char
  | b1 :: b2 :: b3 :: rest =>
      b64char (b1 / 4) :: b64char (b1 % 4 * 16 + b2 / 16) ::
      b64char (b2 % 16 * 4 + b3 / 64) :: b64char (b3 % 64) :: b64encodeBytes rest
  | [b1, b2] => [b64char (b1 / 4), b64char (b1 % 4 * 16 + b2 / 16),
                 b64char (b2 % 16 * 4), '=']
  | [b1] => [b64char (b1 / 4), b64char (b1 % 4 * 16), '=', '=']
  | [] => []

def b64decodeBytes : List Char → Option (List Nat)
  | c1 :: c2 :: c3 :: c4 :: rest =>
    if c3 == '=' && c4 == '=' && rest.isEmpty then
      match b64index c1, b64index c2 with
      | some s1, some s2 => some [s1 * 4 + s2 / 16]
      | _, _ => none
    else if c4 == '=' && rest.isEmpty then
      match b64index c1, b64index c2, b64index c3 with
      | some s1, some s2, some s3 => some [s1 * 4 + s2 / 16, s2 % 16 * 16 + s3 / 4]
      | _, _, _ => none
    else
      match b64index c1, b64index c2, b64index c3, b64index c4,
            b64decodeBytes rest with
      | some s1, some s2, some s3, some s4, some tl =>
          some ((s1 * 4 + s2 / 16) :: (s2 % 16 * 16 + s3 / 4) :: (s3 % 4 * 64 + s4) :: tl)
      | _, _, _, _, _ => none
  | [] => some []
  | _ => none

theorem b64index_b64char {s : Nat} (h : s < 64) : b64index (b64char s) = some s := by
  interval_cases s <;> rfl

theorem b64char_ne_pad {s : Nat} (h : s < 64) : b64char s ≠ '=' := by
  interval_cases s <;> decide

theorem b64_roundtrip (bs : List Nat) (h : ∀ b ∈ bs, b < 256) :
    b64decodeBytes (b64encodeBytes bs) = some bs := by
  suffices H : ∀ n, ∀ bs : List Nat, bs.length = n → (∀ b ∈ bs, b < 256) →
      b64decodeBytes (b64encodeBytes bs) = some bs from H bs.length bs rfl h
  intro n
  induction n using Nat.strong_induction_on with
  | _ n ih =>
  intro bs hn h
  match bs with
  | [] => simp [b64encodeBytes, b64decodeBytes]
  | [b1] =>
    have h1 : b1 < 256 := h b1 (by simp)
    have hs1 : b1 / 4 < 64 := by omega
    have hs2 : b1 % 4 * 16 < 64 := by omega
    simp only [b64encodeBytes, b64decodeBytes, beq_self_eq_true, Bool.and_self,
      List.isEmpty_nil, Bool.and_true, if_true,
      b64index_b64char hs1, b64index_b64char hs2]
    have e1 : b1 / 4 * 4 + b1 % 4 * 16 / 16 = b1 := by omega
    rw [e1]
  | [b1, b2] =>
    have h1 : b1 < 256 := h b1 (by simp)
    have h2 : b2 < 256 := h b2 (by simp)
    have hs1 : b1 / 4 < 64 := by omega
    have hs2 : b1 % 4 * 16 + b2 / 16 < 64 := by omega
    have hs3 : b2 % 16 * 4 < 64 := by omega
    have hne : (b64char (b2 % 16 * 4) == '=') = false := by
      simp [b64char_ne_pad hs3]
    simp only [b64encodeBytes, b64decodeBytes, hne, beq_self_eq_true,
      List.isEmpty_nil, Bool.false_and, Bool.and_true, Bool.true_and,
      Bool.and_false, if_false, if_true,
      b64index_b64char hs1, b64index_b64char hs2, b64index_b64char hs3]
    have e1 : b1 / 4 * 4 + (b1 % 4 * 16 + b2 / 16) / 16 = b1 := by omega
    have e2 : (b1 % 4 * 16 + b2 / 16) % 16 * 16 + b2 % 16 * 4 / 4 = b2 := by omega
    rw [e1, e2]
    simp
  | b1 :: b2 :: b3 :: rest =>
    have h1 : b1 < 256 := h b1 (by simp)
    have h2 : b2 < 256 := h b2 (by simp)
    have h3 : b3 < 256 := h b3 (by simp)
    have hs1 : b1 / 4 < 64 := by omega
    have hs2 : b1 % 4 * 16 + b2 / 16 < 64 := by omega
    have hs3 : b2 % 16 * 4 + b3 / 64 < 64 := by omega
    have hs4 : b3 % 64 < 64 := by omega
    have hrest := ih rest.length (by simp at hn; omega) rest rfl
      (fun b hb => h b (by simp [hb]))
    have hne3 : (b64char (b2 % 16 * 4 + b3 / 64) == '=') = false := by
      simp [b64char_ne_pad hs3]
    have hne4 : (b64char (b3 % 64) == '=') = false := by
      simp [b64char_ne_pad hs4]
    simp only [b64encodeBytes, b64decodeBytes, hne3, hne4,
      Bool.false_and, Bool.and_false, Bool.true_and, Bool.false_eq_true, if_false,
      b64index_b64char hs1, b64index_b64char hs2, b64index_b64char hs3,
      b64index_b64char hs4, hrest]
    have e1 : b1 / 4 * 4 + (b1 % 4 * 16 + b2 / 16) / 16 = b1 := by omega
    have e2 : (b1 % 4 * 16 + b2 / 16) % 16 * 16 + (b2 % 16 * 4 + b3 / 64) / 4 = b2 := by
      omega
    have e3 : (b2 % 16 * 4 + b3 / 64) % 4 * 64 + b3 % 64 = b3 := by omega
    rw [e1, e2, e3]

/-! ## Position (`backgammon/position.py`)

`Position` is the board from the point of view of the player on roll,
exactly as the frozen dataclass: 24 signed point counts (positive = player,
negative = opponent), plus bar and borne-off counters for both sides. -/

def POINTS : Nat := 24

def POINTS_PER_QUADRANT : Nat := 6

def CHECKERS : Int := 15

structure Position where
  board_points : List Int
  player_bar : Int
  player_off : Int
  opponent_bar : Int
  opponent_off : Int
deriving DecidableEq, Repr

/-- Model of `Position.apply_move`: decrement the source slot (`player_bar` when the
source is absent), increment the destination slot (`player_off` when the
destination is absent), displacing a lone opponent checker (a hit) to the
opponent's bar.  The destination is read after the source update, as the
Python code mutates a single list. -/
def Position.apply_move (p : Position) (source destination : Option Nat) : Position :=
  let bp0 := p.board_points
  let bp1 := match source with
    | none => bp0
    | some s => bp0.set s (bp0.getD s 0 - 1)
  let player_bar := match source with
    | none => p.player_bar - 1
    | some _ => p.player_bar
  match destination with
  | none =>
    { board_points := bp1, player_bar := player_bar,
      player_off := p.player_off + 1,
      opponent_bar := p.opponent_bar, opponent_off := p.opponent_off }
  | some d =>
    if bp1.getD d 0 = -1 then
      { board_points := bp1.set d 1, player_bar := player_bar,
        player_off := p.player_off,
        opponent_bar := p.opponent_bar + 1, opponent_off := p.opponent_off }
    else
      { board_points := bp1.set d (bp1.getD d 0 + 1), player_bar := player_bar,
        player_off := p.player_off,
        opponent_bar := p.opponent_bar, opponent_off := p.opponent_off }

/-- Model of `Position.enter`: try to enter from the bar on `pips`. -/
def Position.enter (p : Position) (pips : Nat) : Option Position × Option Nat :=
  let destination := POINTS - pips
  if p.board_points.getD destination 0 ≥ -1 then
    (some (p.apply_move none (some destination)), some destination)
  else
    (none, none)

/-- Model of `Position.player_home`: player checker counts on the home quadrant,
opponent checkers zeroed out. -/
def Position.player_home (p : Position) : List Int :=
  (p.board_points.take POINTS_PER_QUADRANT).map fun point =>
    if point > 0 then point else 0

/-- Model of `Position.off`: try to move a checker inside the player's home board,
bearing it off when the die takes it past the board edge. -/
def Position.off (p : Position) (point pips : Nat) : Option Position × Option Nat :=
  if p.board_points.getD point 0 > 0 then
    let destination : Int := (point : Int) - (pips : Int)
    if destination < 0 then
      let checkers_on_higher_points := (p.player_home.drop (point + 1)).sum
      if destination = -1 ∨ checkers_on_higher_points = 0 then
        (some (p.apply_move (some point) none), none)
      else
        (none, none)
    else if p.board_points.getD destination.toNat 0 ≥ -1 then
      (some (p.apply_move (some point) (some destination.toNat)), some destination.toNat)
    else
      (none, none)
  else
    (none, none)

/-- Model of `Position.move`: try an ordinary point-to-point move. -/
def Position.move (p : Position) (point pips : Nat) : Option Position × Option Nat :=
  if p.board_points.getD point 0 > 0 then
    if (point : Int) - (pips : Int) ≥ 0 then
      let destination := point - pips
      if p.board_points.getD destination 0 ≥ -1 then
        (some (p.apply_move (some point) (some destination)), some destination)
      else
        (none, none)
    else
      (none, none)
  else
    (none, none)

/-- Model of `Position.swap_players`: reverse the board (order and sign) and swap the
bar/off counters of the two sides. -/
def Position.swap_players (p : Position) : Position :=
  { board_points := p.board_points.reverse.map (fun n => -n),
    player_bar := p.opponent_bar,
    player_off := p.opponent_off,
    opponent_bar := p.player_bar,
    opponent_off := p.player_off }

/-! ## Position codec -/

/-- Model of `_unmerge_points`, player half: opponent checkers zeroed. -/
def unmergePlayer (board_points : List Int) : List Int :=
  board_points.map fun n => if n < 0 then 0 else n

/-- Model of `_unmerge_points`, opponent half: board reversed, player checkers zeroed,
counts stored positively. -/
def unmergeOpponent (board_points : List Int) : List Int :=
  board_points.reverse.map fun n => if n > 0 then 0 else -n

/-- The 50 checker-count slots of the position key, in the fixed order
opponent points, opponent bar, player points, player bar. -/
def checkersOf (p : Position) : List Int :=
  unmergeOpponent p.board_points ++ [p.opponent_bar] ++
    unmergePlayer p.board_points ++ [p.player_bar]

/-- Unary run of `_key_from_checkers`: `"1" * n + "0"` (a negative `n`
yields the empty Python string, hence just the delimiter). -/
def unaryBits (n : Int) : List Bool :=
  List.replicate n.toNat true ++ [false]

/-- Model of `str.ljust(80, "0")`. -/
def ljust80 (l : List Bool) : List Bool :=
  l ++ List.replicate (80 - l.length) false

/-- Model of `_key_from_checkers`: unary runs for all 50 slots, right-padded with
zeros to 80 bits. -/
def keyFromCheckers (checkers : List Int) : List Bool :=
  ljust80 (checkers.map unaryBits).flatten

/-- Model of `Position.encode`: position key, bytes, base64, with the two trailing
`=` padding characters dropped. -/
def Position.encode (p : Position) : List Char :=
  (b64encodeBytes (bytesFromKey (keyFromCheckers (checkersOf p)))).dropLast.dropLast

/-- Model of `position_key.split("0")`, counting the `1`s of every group: the list of
run lengths between `0` delimiters (Python's `split` also yields the group
after the last delimiter). -/
def splitCounts : List Bool → List Nat
  | [] => [0]
  | false :: t => 0 :: splitCounts t
  | true :: t =>
    match splitCounts t with
    | h :: r => (h + 1) :: r
    | [] => [1]

/-- Failure modes of `position.decode`: `binascii.Error` from
`base64.b64decode`, and `IndexError` from `checkers[49]` when the key has
fewer than 50 slots. -/
inductive PosDecodeError where
  | base64Error
  | indexError
deriving DecidableEq, Repr

/-- Model of `position.decode`: base64-decode `position_id + "=="`, unpack the bit
key, split it into the 50 checker slots and rebuild the `Position`,
inferring both `off` counters from the 15-checker total. -/
def posDecode (position_id : List Char) : Except PosDecodeError Position :=
  match b64decodeBytes (position_id ++ ['=', '=']) with
  | Option.none => Except.error PosDecodeError.base64Error
  | some bytes =>
    let position_key := keyFromBytes bytes
    let checkers := (splitCounts position_key).take 50
    if checkers.length < 50 then
      Except.error PosDecodeError.indexError
    else
      let player_points := (checkers.drop 25).take 24
      let opponent_points := checkers.take 24
      let board_points := List.zipWith (fun (i j : Nat) => (i : Int) - (j : Int))
        player_points opponent_points.reverse
      let player_bar := checkers.getD 49 0
      let player_off := ((15 : Int) - (player_points.sum : Int) - (player_bar : Int)).natAbs
      let opponent_bar := checkers.getD 24 0
      let opponent_off :=
        ((15 : Int) - (opponent_points.sum : Int) - ((opponent_bar : Int).natAbs : Int)).natAbs
      Except.ok
        { board_points := board_points,
          player_bar := (player_bar : Int),
          player_off := (player_off : Int),
          opponent_bar := (opponent_bar : Int),
          opponent_off := (opponent_off : Int) }

/-! ## Match (`backgammon/match.py`) -/

inductive Player where
  | zero
  | one
  | centered
deriving DecidableEq, Repr

/-- Wire value of the `Player` IntEnum (`0b00`, `0b01`, `0b11`). -/
def Player.toNat : Player → Nat
  | Player.zero => 0
  | Player.one => 1
  | Player.centered => 3

/-- Model of `Player(n)`: the IntEnum constructor, raising `ValueError` (here
`Option.none`) on a value outside the enumeration. -/
def Player.ofNat? (n : Nat) : Option Player :=
  if n = 0 then some Player.zero
  else if n = 1 then some Player.one
  else if n = 3 then some Player.centered
  else Option.none

inductive GameState where
  | not_started
  | playing
  | game_over
  | resigned
  | dropped_cube
deriving DecidableEq, Repr

def GameState.toNat : GameState → Nat
  | GameState.not_started => 0
  | GameState.playing => 1
  | GameState.game_over => 2
  | GameState.resigned => 3
  | GameState.dropped_cube => 4

def GameState.ofNat? (n : Nat) : Option GameState :=
  if n = 0 then some GameState.not_started
  else if n = 1 then some GameState.playing
  else if n = 2 then some GameState.game_over
  else if n = 3 then some GameState.resigned
  else if n = 4 then some GameState.dropped_cube
  else Option.none

inductive Resign where
  | none
  | single_game
  | gammon
  | backgammon
deriving DecidableEq, Repr

def Resign.toNat : Resign → Nat
  | Resign.none => 0
  | Resign.single_game => 1
  | Resign.gammon => 2
  | Resign.backgammon => 3

def Resign.ofNat? (n : Nat) : Option Resign :=
  if n = 0 then some Resign.none
  else if n = 1 then some Resign.single_game
  else if n = 2 then some Resign.gammon
  else if n = 3 then some Resign.backgammon
  else Option.none

structure Match where
  cube_value : Nat
  cube_holder : Player
  player : Player
  crawford : Bool
  game_state : GameState
  turn : Player
  double : Bool
  resign : Resign
  dice : Nat × Nat
  length : Nat
  player_0_score : Nat
  player_1_score : Nat
deriving DecidableEq, Repr

/-- Model of `Match.swap_players`: both `player` and `turn` become the opposite of
the current `player` (anything other than `ONE` flips to `ONE`). -/
def Match.swap_players (m : Match) : Match :=
  let np := if m.player = Player.one then Player.zero else Player.one
  { m with player := np, turn := np }

/-- Model of `Match.swap_turn`. -/
def Match.swap_turn (m : Match) : Match :=
  { m with turn := if m.turn = Player.one then Player.zero else Player.one }

/-- Model of `Match.reset_dice`. -/
def Match.reset_dice (m : Match) : Match :=
  { m with dice := (0, 0) }

/-- Model of `Match.reset_cube`. -/
def Match.reset_cube (m : Match) : Match :=
  { m with cube_holder := Player.centered, cube_value := 1 }

/-- Model of `Match.drop_cube`: score the cube to `player`, clear the pending
double, and end the match when a score reaches the match length. -/
def Match.drop_cube (m : Match) : Match :=
  let m1 : Match := if m.player = Player.zero then
      { m with player_0_score := m.player_0_score + m.cube_value }
    else
      { m with player_1_score := m.player_1_score + m.cube_value }
  let m2 : Match := { m1 with double := false }
  if m2.player_0_score ≥ m2.length ∨ m2.player_1_score ≥ m2.length then
    { m2 with game_state := GameState.dropped_cube }
  else
    m2

/-- Model of `Match.update_score`: award `cube_value * multiplier` points to the
player on turn, recompute the Crawford flag, clear the pending double and
detect match completion. -/
def Match.update_score (m : Match) (multiplier : Nat) : Match :=
  let points := m.cube_value * multiplier
  let m1 : Match := { m with crawford := false }
  let m2 : Match :=
    if m1.turn = Player.zero then
      let ma := { m1 with player_0_score := m1.player_0_score + points }
      if ma.length - ma.player_0_score = 1 ∧ ma.length - ma.player_1_score > 1 then
        { ma with crawford := true }
      else ma
    else
      let mb := { m1 with player_1_score := m1.player_1_score + points }
      if mb.length - mb.player_1_score = 1 ∧ mb.length - mb.player_0_score > 1 then
        { mb with crawford := true }
      else mb
  let m3 : Match := { m2 with double := false }
  if m3.player_0_score ≥ m3.length ∨ m3.player_1_score ≥ m3.length then
    { m3 with game_state := GameState.game_over }
  else
    m3

/-! ## Match codec -/

/-- Model of `f"{v:b}"`: minimal-length binary, most significant bit first. -/
def pyFormatB (v : Nat) : List Bool :=
  (natToBitsLE v (Nat.log2 v + 1)).reverse

/-- Model of `f"{v:0{w}b}"`: binary zero-padded on the left to at least `w` digits,
most significant bit first. -/
def pyFormatBW (v w : Nat) : List Bool :=
  List.replicate (w - (Nat.log2 v + 1)) false ++ pyFormatB v

/-- A fixed-width field of the match key: `f"{v:0{w}b}"[::-1]`. -/
def fieldBits (v w : Nat) : List Bool :=
  (pyFormatBW v w).reverse

/-- The 66-bit match key, field by field in the §4.2 order, each fixed-width
field reversed to least-significant-bit-first (the single-bit `player`,
`crawford`, `turn` and `double` fields are written with `f"{v:b}"`,
unreversed). -/
def matchKeyBits (m : Match) : List Bool :=
  fieldBits (Nat.log2 m.cube_value) 4 ++
  fieldBits m.cube_holder.toNat 2 ++
  pyFormatB m.player.toNat ++
  pyFormatB (if m.crawford then 1 else 0) ++
  fieldBits m.game_state.toNat 3 ++
  pyFormatB m.turn.toNat ++
  pyFormatB (if m.double then 1 else 0) ++
  fieldBits m.resign.toNat 2 ++
  fieldBits m.dice.1 3 ++
  fieldBits m.dice.2 3 ++
  fieldBits m.length 15 ++
  fieldBits m.player_0_score 15 ++
  fieldBits m.player_1_score 15

/-- Model of `Match.encode`: pack the 66-bit key into 9 bytes and base64-encode
(9 bytes = 12 characters, no padding). -/
def Match.encode (m : Match) : List Char :=
  b64encodeBytes (bytesFromKey (matchKeyBits m))

/-- Failure modes of `match.decode` on malformed input: `binascii.Error`
from base64, `IndexError`/`ValueError` from indexing a too-short key, and
`ValueError` from an enum constructor. -/
inductive MatchDecodeError where
  | base64Error
  | shortKey
  | valueError
deriving DecidableEq, Repr

/-- Model of `int(match_key[i : i + w][::-1], 2)`. -/
def keyField (key : List Bool) (i w : Nat) : Nat :=
  bitsToNatLE ((key.drop i).take w)

/-- Model of `match.decode`: base64-decode, unpack bits, read the fields back. -/
def matchDecode (match_id : List Char) : Except MatchDecodeError Match :=
  match b64decodeBytes match_id with
  | Option.none => Except.error MatchDecodeError.base64Error
  | some match_bytes =>
    let match_key := (match_bytes.map (fun b => natToBitsLE b 8)).flatten
    if match_key.length < 66 then
      Except.error MatchDecodeError.shortKey
    else
      match Player.ofNat? (keyField match_key 4 2),
            Player.ofNat? (keyField match_key 6 1),
            GameState.ofNat? (keyField match_key 8 3),
            Player.ofNat? (keyField match_key 11 1),
            Resign.ofNat? (keyField match_key 13 2) with
      | some cube_holder, some player, some game_state, some turn, some resign =>
        Except.ok
          { cube_value := 2 ^ keyField match_key 0 4,
            cube_holder := cube_holder,
            player := player,
            crawford := keyField match_key 7 1 = 1,
            game_state := game_state,
            turn := turn,
            double := keyField match_key 12 1 = 1,
            resign := resign,
            dice := (keyField match_key 15 3, keyField match_key 18 3),
            length := keyField match_key 21 15,
            player_0_score := keyField match_key 36 15,
            player_1_score := keyField match_key 51 15 }
      | _, _, _, _, _ => Except.error MatchDecodeError.valueError

/-! ## Engine (`backgammon/backgammon.py`) -/

/-- The engine state: `self.position` and `self.match` of the `Backgammon`
class (`match` is a reserved word in Lean, hence `matchState`). -/
structure Game where
  position : Position
  matchState : Match
deriving DecidableEq, Repr

structure Move where
  pips : Nat
  source : Option Nat
  destination : Option Nat
deriving DecidableEq, Repr

structure Play where
  moves : List Move
  position : Position
deriving DecidableEq, Repr

def STARTING_POSITION_ID : List Char := "4HPwATDgc/ABMA".toList

def STARTING_MATCH_ID : List Char := "cAgAAAAAAAAA".toList

/-- Model of `backgammon.position.decode(STARTING_POSITION_ID)` (see
`c9_starting_identifiers` below for the correspondence). -/
def startingPosition : Position :=
  { board_points := [-2, 0, 0, 0, 0, 5, 0, 3, 0, 0, 0, -5,
                     5, 0, 0, 0, -3, 0, -5, 0, 0, 0, 0, 2],
    player_bar := 0, player_off := 0, opponent_bar := 0, opponent_off := 0 }

/-- The recursive `generate` helper of `generate_plays`: depth-first over
the remaining dice, entering from the bar when it holds checkers, bearing
off when all checkers are home or off, ordinary moves otherwise; a play is
recorded after the recursion whenever at least one move was made.  The
Python version appends into a shared list in exactly this depth-first
order. -/
def generate : Position → List Nat → List Move → List Play
  | position, [], moves =>
    if moves.length > 0 then [{ moves := moves, position := position }] else []
  | position, pips :: rest, moves =>
    (if position.player_bar > 0 then
      match position.enter pips with
      | (some new_position, destination) =>
        generate new_position rest
          (moves ++ [{ pips := pips, source := Option.none, destination := destination }])
      | (Option.none, _) => []
    else if position.player_home.sum + position.player_off = CHECKERS then
      (List.range POINTS_PER_QUADRANT).flatMap fun point =>
        match position.off point pips with
        | (some new_position, destination) =>
          generate new_position rest
            (moves ++ [{ pips := pips, source := some point, destination := destination }])
        | (Option.none, _) => []
    else
      (List.range POINTS).flatMap fun point =>
        match position.move point pips with
        | (some new_position, destination) =>
          generate new_position rest
            (moves ++ [{ pips := pips, source := some point, destination := destination }])
        | (Option.none, _) => []) ++
    (if moves.length > 0 then [{ moves := moves, position := position }] else [])

/-- The dice list the generator consumes: `dice * 2` on doubles. -/
def diceList (m : Match) : List Nat :=
  if m.dice.1 = m.dice.2 then [m.dice.1, m.dice.2, m.dice.1, m.dice.2]
  else [m.dice.1, m.dice.2]

/-- The raw play list of `generate_plays` before the reduction phase.

For a non-double roll the Python code calls the nested `generate` twice
without passing the `plays` parameter, so both calls share the same
mutable default list `D`: after the second call `D` holds both passes, and
`plays += generate(...)` then extends `D` with itself, duplicating every
entry.  The model reproduces that duplicated list. -/
def genPhase (g : Game) : List Play :=
  let dice := diceList g.matchState
  if g.matchState.dice.1 = g.matchState.dice.2 then
    generate g.position dice []
  else
    let d := generate g.position dice [] ++ generate g.position dice.reverse []
    d ++ d

/-- Python's `hash(position)` modelled by an injective canonical key: the
numeric value of the 80-bit position key.  `sorted`/`groupby` only rely on
equal hashes characterising equal positions. -/
def hashPos (p : Position) : Nat :=
  bitsToNatLE (keyFromCheckers (checkersOf p))

/-- Stable insertion of a play into a key-sorted list (models `sorted` with
`key_func`). -/
def insertByKey (key : Play → Nat) (p : Play) : List Play → List Play
  | [] => [p]
  | q :: r => if key p ≤ key q then p :: q :: r else q :: insertByKey key p r

/-- Stable sort by key (models `sorted(plays, key=key_func)`). -/
def sortByKey (key : Play → Nat) : List Play → List Play
  | [] => []
  | p :: r => insertByKey key p (sortByKey key r)

/-- Continuation of `dedupAdj` below: walk the tail, dropping elements
whose key equals the current group's key and starting a new group
otherwise. -/
def dedupRun (key : Play → Nat) (prev : Play) : List Play → List Play
  | [] => []
  | q :: r => if key q = key prev then dedupRun key prev r else q :: dedupRun key q r

/-- Model of `map(next, map(itemgetter(1), groupby(plays, key_func)))`: the first
element of every maximal run of equal keys. -/
def dedupAdj (key : Play → Nat) : List Play → List Play
  | [] => []
  | p :: rest => p :: dedupRun key p rest

/-- Default value for the `moves[0]` lookup below (Python indexes the
first move directly; every recorded play has at least one move). -/
def nullMove : Move := { pips := 0, source := Option.none, destination := Option.none }

/-- Model of `Backgammon.generate_plays`: generation, mandatory-play reduction
(higher die for single-move plays, maximal move count otherwise),
key-sort and deduplication by resulting position. -/
def generate_plays (g : Game) : List Play :=
  let dice := diceList g.matchState
  let plays := genPhase g
  if plays = [] then
    plays
  else
    let max_moves := (plays.map fun p => p.moves.length).foldl Nat.max 0
    let plays1 :=
      if max_moves = 1 then
        let max_pips := dice.foldl Nat.max 0
        let higher_plays := plays.filter fun p =>
          (p.moves.headD nullMove).pips = max_pips
        if higher_plays = [] then plays else higher_plays
      else
        plays.filter fun p => p.moves.length = max_moves
    dedupAdj (fun p => hashPos p.position) (sortByKey (fun p => hashPos p.position) plays1)

/-- Model of `Backgammon.first_roll`: re-roll until the dice differ, the higher die
choosing `player`/`turn`.  The stream of rolls is the explicit `fresh`
oracle; an exhausted stream (impossible for fair dice) leaves the state as
is. -/
def first_roll : List (Nat × Nat) → Game → Game
  | [], g => g
  | (d1, d2) :: rest, g =>
    if d1 = d2 then
      first_roll rest { g with matchState := { g.matchState with dice := (d1, d2) } }
    else
      let pl := if d1 > d2 then Player.zero else Player.one
      { g with matchState :=
          { g.matchState with dice := (d1, d2), player := pl, turn := pl } }

/-- Model of `Backgammon.end_turn`: flip the board perspective, swap
`player`/`turn`, clear the dice. -/
def end_turn (g : Game) : Game :=
  { position := g.position.swap_players,
    matchState := g.matchState.swap_players.reset_dice }

/-- Model of `Backgammon.end_game`: score the game, clear any resignation offer and,
if the match continues, reset cube and board and perform a fresh opening
roll. -/
def end_game (fresh : List (Nat × Nat)) (g : Game) (multiplier : Nat) : Game :=
  let m1 : Match := g.matchState.update_score multiplier
  let m2 : Match := { m1 with resign := Resign.none }
  if m2.game_state = GameState.playing then
    first_roll fresh { position := startingPosition, matchState := m2.reset_cube }
  else
    { g with matchState := m2 }

/-- Model of `Backgammon.play`: apply the submitted move sequence, validate the
resulting position against the generated legal plays, then either end the
game (with the gammon/backgammon multiplier) or end the turn.  The raised
`BackgammonError` carries the unchanged state. -/
def Backgammon.play (fresh : List (Nat × Nat)) (g : Game)
    (moves : List (Option Nat × Option Nat)) : Except (String × Game) Game :=
  let new_position := moves.foldl (fun pos sd => pos.apply_move sd.1 sd.2) g.position
  let legal_plays := generate_plays g
  if new_position ∈ legal_plays.map (fun play => play.position) then
    let g1 : Game := { g with position := new_position }
    if g1.position.player_off = CHECKERS then
      let multiplier : Nat :=
        if g1.position.opponent_off = 0 then
          if g1.position.opponent_bar > 0 ∨
              (g1.position.board_points.take POINTS_PER_QUADRANT).sum ≠ 0 then 3
          else 2
        else 1
      Except.ok (end_game fresh g1 multiplier)
    else
      Except.ok (end_turn g1)
  else
    Except.error ("Invalid move", g)

/-- Model of `Backgammon.double`. -/
def Backgammon.double (g : Game) : Except (String × Game) Game :=
  if g.matchState.dice ≠ (0, 0) then
    Except.error ("Cannot double: dice have been rolled", g)
  else if g.matchState.cube_holder ≠ Player.centered ∧
      g.matchState.cube_holder ≠ g.matchState.player then
    Except.error ("Cannot double: not cube holder", g)
  else if g.matchState.double then
    Except.error ("Cannot double: already doubled", g)
  else if (if g.matchState.player = Player.zero then g.matchState.player_0_score
      else g.matchState.player_1_score) + g.matchState.cube_value ≥ g.matchState.length then
    Except.error ("Cannot double: dead cube", g)
  else if g.matchState.crawford then
    Except.error ("Cannot double: crawford game", g)
  else
    Except.ok { g with matchState := ({ g.matchState with double := true }).swap_turn }

/-- Model of `Backgammon.accept_double`. -/
def Backgammon.accept_double (g : Game) : Except (String × Game) Game :=
  if g.matchState.double then
    let m1 : Match := { g.matchState with double := false }
    let m2 : Match := { m1 with cube_value := m1.cube_value * 2 }
    let m3 : Match := { m2 with cube_holder :=
      if m2.turn = Player.zero then Player.zero else Player.one }
    Except.ok { g with matchState := m3.swap_turn }
  else
    Except.error ("Cannot accept double: double not offered", g)

/-- Model of `Backgammon.reject_double`. -/
def Backgammon.reject_double (fresh : List (Nat × Nat)) (g : Game) :
    Except (String × Game) Game :=
  if g.matchState.double then
    let m1 : Match := g.matchState.drop_cube
    if m1.game_state = GameState.playing then
      Except.ok (first_roll fresh
        { position := startingPosition, matchState := m1.reset_cube })
    else
      Except.ok { g with matchState := m1 }
  else
    Except.error ("Cannot reject double: double not offered", g)

/-- Model of `Backgammon.resign`. -/
def Backgammon.resign (g : Game) (resign_type : Resign) : Except (String × Game) Game :=
  if g.matchState.resign = Resign.none then
    Except.ok { g with matchState :=
      ({ g.matchState with resign := resign_type }).swap_turn }
  else
    Except.error ("Resignation has already been offered.", g)

/-- Model of `Backgammon.accept_resignation`. -/
def Backgammon.accept_resignation (fresh : List (Nat × Nat)) (g : Game) :
    Except (String × Game) Game :=
  if g.matchState.resign ≠ Resign.none then
    Except.ok (end_game fresh g g.matchState.resign.toNat)
  else
    Except.error ("Resignation hasn't been offered", g)

/-- Model of `Backgammon.reject_resignation`. -/
def Backgammon.reject_resignation (g : Game) : Except (String × Game) Game :=
  if g.matchState.resign ≠ Resign.none then
    Except.ok { g with matchState :=
      ({ g.matchState with resign := Resign.none }).swap_turn }
  else
    Except.error ("Resignation hasn't been offered", g)

/-- Model of `Backgammon.roll`: the drawn pair is the oracle argument. -/
def Backgammon.roll (d : Nat × Nat) (g : Game) : Except (String × Game) Game :=
  if g.matchState.dice ≠ (0, 0) then
    Except.error ("Dice have already been rolled", g)
  else
    Except.ok { g with matchState := { g.matchState with dice := d } }

/-- Model of `Backgammon.skip`. -/
def Backgammon.skip (g : Game) : Except (String × Game) Game :=
  let num_plays := (generate_plays g).length
  if num_plays = 0 then
    Except.ok (end_turn g)
  else
    Except.error ("Cannot skip turn", g)

/-! ## Claims -/

/-- Claim C10 — For every Position `p`, applying `swap_players` twice returns
a Position equal to `p`: `swap_players` is an involution on Positions. -/
theorem c10_swap_players_involution (p : Position) :
    p.swap_players.swap_players = p := by
  cases p with
  | mk bp pb po ob oo =>
    simp only [Position.swap_players]
    congr 1
    rw [← List.map_reverse, List.reverse_reverse, List.map_map]
    simp

/-- Sum of the player's checkers on the board: `Σ max(board_points, 0)`. -/
def sumPos (l : List Int) : Int := (l.map fun n => max n 0).sum

/-- Sum of the opponent's checkers on the board (stored negated):
`Σ max(-board_points, 0)`. -/
def sumNeg (l : List Int) : Int := (l.map fun n => max (-n) 0).sum

/-- The 15-checker conservation invariant of §3, for both sides. -/
def Position.conserved (p : Position) : Prop :=
  p.player_off + p.player_bar + sumPos p.board_points = 15 ∧
    p.opponent_off + p.opponent_bar + sumNeg p.board_points = 15

instance (p : Position) : Decidable p.conserved := by
  unfold Position.conserved
  infer_instance

theorem sum_map_set (f : Int → Int) (l : List Int) (i : Nat) (v : Int)
    (h : i < l.length) :
    ((l.set i v).map f).sum = (l.map f).sum - f (l.getD i 0) + f v := by
  induction l generalizing i with
  | nil => simp at h
  | cons a t ih =>
    cases i with
    | zero =>
      simp [List.set, List.getD]
      ring
    | succ j =>
      have hj : j < t.length := by simpa using h
      simp only [List.set, List.map_cons, List.sum_cons, ih j hj,
        List.getD_cons_succ]
      ring

theorem getD_set_self (l : List Int) (i : Nat) (v : Int) (h : i < l.length) :
    (l.set i v).getD i 0 = v := by
  rw [List.getD_eq_getElem _ _ (by simpa using h)]
  exact List.getElem_set_self _

theorem getD_set_ne (l : List Int) {i j : Nat} (hne : i ≠ j) (v : Int)
    (h : j < l.length) :
    (l.set i v).getD j 0 = l.getD j 0 := by
  rw [List.getD_eq_getElem _ _ (by simpa using h),
    List.getD_eq_getElem _ _ h]
  exact List.getElem_set_ne hne _

/-- Claim C2 — For every Position satisfying the 15-checker conservation
invariant for both sides, and every move whose source slot holds a player
checker (`player_bar > 0` when the source is absent) and whose destination
holds at least `-1` (or is absent, meaning borne off), `apply_move`
preserves both conservation equations. -/
theorem c2_apply_move_conserved (p : Position) (source destination : Option Nat)
    (hc : p.conserved)
    (hs : match source with
      | some s => s < p.board_points.length ∧ 0 < p.board_points.getD s 0
      | Option.none => 0 < p.player_bar)
    (hd : match destination with
      | some d => d < p.board_points.length ∧ -1 ≤ p.board_points.getD d 0
      | Option.none => True) :
    (p.apply_move source destination).conserved := by
  obtain ⟨hcp, hco⟩ := hc
  cases source with
  | none =>
    cases destination with
    | none =>
      simp only [Position.apply_move, Position.conserved]
      constructor <;> [skip; exact hco]
      omega
    | some d =>
      obtain ⟨hdl, hdv⟩ := hd
      simp only [Position.apply_move]
      by_cases hhit : p.board_points.getD d 0 = -1
      · rw [if_pos hhit]
        constructor <;> simp only [Position.conserved, sumPos, sumNeg] at *
        · rw [sum_map_set _ _ _ _ hdl, hhit]
          omega
        · rw [sum_map_set _ _ _ _ hdl, hhit]
          omega
      · rw [if_neg hhit]
        have hge : 0 ≤ p.board_points.getD d 0 := by omega
        constructor <;> simp only [Position.conserved, sumPos, sumNeg] at *
        · rw [sum_map_set _ _ _ _ hdl]
          omega
        · rw [sum_map_set _ _ _ _ hdl]
          omega
  | some s =>
    obtain ⟨hsl, hsv⟩ := hs
    have hslen : (p.board_points.set s (p.board_points.getD s 0 - 1)).length
        = p.board_points.length := List.length_set _ _ _
    cases destination with
    | none =>
      simp only [Position.apply_move, Position.conserved, sumPos, sumNeg] at *
      constructor
      · rw [sum_map_set _ _ _ _ hsl]
        omega
      · rw [sum_map_set _ _ _ _ hsl]
        omega
    | some d =>
      obtain ⟨hdl, hdv⟩ := hd
      simp only [Position.apply_move]
      by_cases hsd : s = d
      · -- moving a checker onto its own source point
        subst hsd
        have hself : (p.board_points.set s (p.board_points.getD s 0 - 1)).getD s 0
            = p.board_points.getD s 0 - 1 := getD_set_self _ _ _ hsl
        have hnohit : ¬(p.board_points.set s (p.board_points.getD s 0 - 1)).getD s 0 = -1 := by
          rw [hself]; omega
        rw [if_neg hnohit]
        simp only [Position.conserved, sumPos, sumNeg] at *
        constructor
        · rw [List.set_set, sum_map_set _ _ _ _ hsl, hself]
          have he : p.board_points.getD s 0 - 1 + 1 = p.board_points.getD s 0 := by ring
          rw [he]
          omega
        · rw [List.set_set, sum_map_set _ _ _ _ hsl, hself]
          have he : p.board_points.getD s 0 - 1 + 1 = p.board_points.getD s 0 := by ring
          rw [he]
          omega
      · -- distinct source and destination
        have hd1 : (p.board_points.set s (p.board_points.getD s 0 - 1)).getD d 0
            = p.board_points.getD d 0 := getD_set_ne _ hsd _ hdl
        by_cases hhit : p.board_points.getD d 0 = -1
        · rw [if_pos (by rw [hd1]; exact hhit)]
          simp only [Position.conserved, sumPos, sumNeg] at *
          constructor
          · rw [sum_map_set _ _ _ _ (by rw [hslen]; exact hdl),
              sum_map_set _ _ _ _ hsl, hd1, hhit]
            omega
          · rw [sum_map_set _ _ _ _ (by rw [hslen]; exact hdl),
              sum_map_set _ _ _ _ hsl, hd1, hhit]
            omega
        · rw [if_neg (by rw [hd1]; exact hhit)]
          have hge : 0 ≤ p.board_points.getD d 0 := by omega
          simp only [Position.conserved, sumPos, sumNeg] at *
          constructor
          · rw [sum_map_set _ _ _ _ (by rw [hslen]; exact hdl),
              sum_map_set _ _ _ _ hsl, hd1]
            omega
          · rw [sum_map_set _ _ _ _ (by rw [hslen]; exact hdl),
              sum_map_set _ _ _ _ hsl, hd1]
            omega

/-- Witness for C2: a bar entry onto an opponent blot (a hit) from the
position of `test_apply_move`, checked concretely. -/
theorem c2_witness :
    (Position.conserved
      { board_points := [0, 0, 0, 0, 0, 0, 0, 0, 0, 0, 0, 0, 0, 0, 0, 0, 0, 0, 0,
          -1, 0, 2, 0, -1], player_bar := 1, player_off := 12,
        opponent_bar := 0, opponent_off := 13 }) ∧
    (Position.apply_move
      { board_points := [0, 0, 0, 0, 0, 0, 0, 0, 0, 0, 0, 0, 0, 0, 0, 0, 0, 0, 0,
          -1, 0, 2, 0, -1], player_bar := 1, player_off := 12,
        opponent_bar := 0, opponent_off := 13 }
      Option.none (some 19)).conserved := by
  constructor
  · decide
  · exact c2_apply_move_conserved _ Option.none (some 19) (by decide) (by decide)
      (by decide)

/-- A position with player checkers on home points 3 and 5 (0-indexed):
`off(3, 4)` is an exact bear-off (`destination = -1`) although a checker
sits on the strictly higher home point 5. -/
def c3pos : Position :=
  { board_points := [0, 0, 0, 1, 0, 1, 0, 0, 0, 0, 0, 0,
                     0, 0, 0, 0, 0, 0, 0, 0, 0, 0, 0, 0],
    player_bar := 0, player_off := 13, opponent_bar := 0, opponent_off := 15 }

/-- Claim C3, counterexample — The claim says `off(point, pips)` with
`point - pips < 0` reports "no move possible" whenever a player checker
sits on a strictly higher home point.  On `c3pos`, `off(3, 4)` has
`3 - 4 = -1 < 0` and a player checker on the higher home point 5, yet the
checker is borne off (the code exempts exact rolls). -/
theorem c3_counterexample :
    (3 : Int) - (4 : Int) < 0 ∧
      0 < c3pos.board_points.getD 5 0 ∧
      c3pos.off 3 4 =
        (some { board_points := [0, 0, 0, 0, 0, 1, 0, 0, 0, 0, 0, 0,
                                 0, 0, 0, 0, 0, 0, 0, 0, 0, 0, 0, 0],
                player_bar := 0, player_off := 14,
                opponent_bar := 0, opponent_off := 15 }, Option.none) := by
  refine ⟨by norm_num, by decide, ?_⟩
  rfl

/-- Claim C3, amended — For every Position and home-quadrant point holding a
player checker, `off(point, pips)` with `point - pips < 0` bears the
checker off (returning a new Position with `player_off` incremented and
the point decremented) exactly when the roll is exact
(`point - pips = -1`) **or** no player checker sits on a strictly higher
home point; when the roll overshoots and a higher checker exists, the call
reports no move possible. -/
theorem c3_off_exact_or_clear (p : Position) (point pips : Nat)
    (_hpt : point < POINTS_PER_QUADRANT)
    (hocc : 0 < p.board_points.getD point 0)
    (hover : (point : Int) - (pips : Int) < 0) :
    (((point : Int) - (pips : Int) = -1 ∨ (p.player_home.drop (point + 1)).sum = 0) →
      p.off point pips = (some (p.apply_move (some point) Option.none), Option.none) ∧
      (p.apply_move (some point) Option.none).player_off = p.player_off + 1 ∧
      (p.apply_move (some point) Option.none).board_points =
        p.board_points.set point (p.board_points.getD point 0 - 1)) ∧
    (¬((point : Int) - (pips : Int) = -1 ∨ (p.player_home.drop (point + 1)).sum = 0) →
      p.off point pips = (Option.none, Option.none)) := by
  constructor
  · intro hcond
    refine ⟨?_, by simp [Position.apply_move], by simp [Position.apply_move]⟩
    simp only [Position.off, if_pos hocc, if_pos hover, if_pos hcond]
  · intro hcond
    simp only [Position.off, if_pos hocc, if_pos hover, if_neg hcond]

/-- Witness for C3 (amended): on `c3pos`, the exact roll `off(3, 4)` bears
off, and the overshooting roll `off(3, 6)` (higher checker on point 5)
reports no move possible. -/
theorem c3_witness :
    c3pos.off 3 4 = (some (c3pos.apply_move (some 3) Option.none), Option.none) ∧
      c3pos.off 3 6 = (Option.none, Option.none) := by
  constructor
  · exact ((c3_off_exact_or_clear c3pos 3 4 (by decide) (by decide)
      (by norm_num)).1 (Or.inl (by norm_num))).1
  · exact (c3_off_exact_or_clear c3pos 3 6 (by decide) (by decide)
      (by norm_num)).2 (by decide)

/-- Model of `backgammon.match.decode(STARTING_MATCH_ID)`. -/
def startingMatch : Match :=
  { cube_value := 1, cube_holder := Player.centered, player := Player.one,
    crawford := false, game_state := GameState.not_started, turn := Player.one,
    double := false, resign := Resign.none, dice := (0, 0), length := 0,
    player_0_score := 0, player_1_score := 0 }

/-- Claim C9 — Decoding the position identifier `"4HPwATDgc/ABMA"` yields the
standard opening Position (board `(-2, 0, 0, 0, 0, 5, 0, 3, 0, 0, 0, -5,
5, 0, 0, 0, -3, 0, -5, 0, 0, 0, 0, 2)`, bars and off counts zero), and
decoding the match identifier `"cAgAAAAAAAAA"` yields a Match with
`cube_value = 1`, `cube_holder` centered, `game_state = not_started` and
`dice = (0, 0)`. -/
theorem c9_starting_identifiers :
    posDecode STARTING_POSITION_ID = Except.ok startingPosition ∧
      matchDecode STARTING_MATCH_ID = Except.ok startingMatch ∧
      startingMatch.cube_value = 1 ∧
      startingMatch.cube_holder = Player.centered ∧
      startingMatch.game_state = GameState.not_started ∧
      startingMatch.dice = (0, 0) := by
  refine ⟨?_, ?_, rfl, rfl, rfl, rfl⟩
  · rfl
  · rfl

/-- An identifier that base64-decodes to 13 bytes, not 10: eighteen `'A'`
characters. -/
def c8Input : List Char := "AAAAAAAAAAAAAAAAAA".toList

/-- Claim C8, counterexample — The claim says every input that does not
base64-decode to exactly 10 bytes fails with a `FormatError` and never
yields a Position.  `c8Input` base64-decodes (after the reinstated `"=="`)
to 13 zero bytes, yet `decode` succeeds and returns a Position; the source
defines no `FormatError` and never checks the byte count. -/
theorem c8_counterexample :
    b64decodeBytes (c8Input ++ ['=', '=']) = some (List.replicate 13 0) ∧
      posDecode c8Input = Except.ok
        { board_points := List.replicate 24 0, player_bar := 0, player_off := 15,
          opponent_bar := 0, opponent_off := 15 } := by
  constructor
  · rfl
  · rfl

/-- Claim C8, amended — The position decoder performs no byte-count
validation and raises no `FormatError`: whenever the identifier
base64-decodes at all and the resulting key still splits into at least the
50 checker slots, `decode` succeeds and returns a Position — regardless of
how many bytes the identifier decoded to.  (Its only failure modes are a
base64 error for non-base64 input and an index error when fewer than 50
slots result.) -/
theorem c8_no_length_validation (s : List Char) (bytes : List Nat)
    (h1 : b64decodeBytes (s ++ ['=', '=']) = some bytes)
    (h2 : 50 ≤ (splitCounts (keyFromBytes bytes)).length) :
    ∃ p, posDecode s = Except.ok p := by
  have hlen : ¬((splitCounts (keyFromBytes bytes)).take 50).length < 50 := by
    simp [List.length_take]
    omega
  simp [posDecode, h1, hlen]
  rw [if_neg (by omega)]
  exact ⟨_, rfl⟩

/-- Witness for C8 (amended): the 18-character identifier `c8Input`. -/
theorem c8_witness : ∃ p, posDecode c8Input = Except.ok p := by
  refine c8_no_length_validation c8Input (List.replicate 13 0) (by rfl) (by decide)

/-- A match state at which the claim's "dead cube" condition (score plus
the *doubled* cube value reaching the match length) holds while the code's
condition (score plus the *current* cube value) does not: score 3,
length 5, cube 1. -/
def c4Game : Game :=
  { position := startingPosition,
    matchState :=
      { cube_value := 1, cube_holder := Player.centered, player := Player.zero,
        crawford := false, game_state := GameState.playing, turn := Player.zero,
        double := false, resign := Resign.none, dice := (0, 0), length := 5,
        player_0_score := 3, player_1_score := 0 } }

/-- Claim C4, counterexample — The claim predicts an error whenever the
caller's score plus the *doubled* cube value reaches the match length.  On
`c4Game` that condition holds (`3 + 2·1 ≥ 5`), all the claim's other error
conditions are false, yet `double()` succeeds: the code tests the score
against the *current* cube value (`3 + 1 < 5`). -/
theorem c4_counterexample :
    c4Game.matchState.player_0_score + 2 * c4Game.matchState.cube_value ≥
        c4Game.matchState.length ∧
      c4Game.matchState.dice = (0, 0) ∧
      c4Game.matchState.cube_holder = Player.centered ∧
      c4Game.matchState.double = false ∧
      c4Game.matchState.crawford = false ∧
      (Backgammon.double c4Game).isOk = true := by
  exact ⟨by decide, rfl, rfl, rfl, rfl, by decide⟩

/-- Claim C4, amended — `double()` raises an error if and only if one of
these holds: the dice are not `(0, 0)`; the cube is neither centered nor
held by the calling player; a double is already pending; the caller's
score plus the **current** cube value is not below the match length; or
the crawford flag is set.  When none holds, `double()` sets the
pending-double flag and transfers the turn to the opponent, and a second
`double()` before acceptance fails with the already-doubled error. -/
theorem c4_double_spec (g : Game) :
    ((Backgammon.double g).isOk = true ↔
      ¬(g.matchState.dice ≠ (0, 0) ∨
        (g.matchState.cube_holder ≠ Player.centered ∧
          g.matchState.cube_holder ≠ g.matchState.player) ∨
        g.matchState.double = true ∨
        (if g.matchState.player = Player.zero then g.matchState.player_0_score
          else g.matchState.player_1_score) + g.matchState.cube_value ≥
            g.matchState.length ∨
        g.matchState.crawford = true)) ∧
    (∀ g', Backgammon.double g = Except.ok g' →
      g'.matchState.double = true ∧
      g'.matchState.turn =
        (if g.matchState.turn = Player.one then Player.zero else Player.one) ∧
      g'.position = g.position ∧
      Backgammon.double g' =
        Except.error ("Cannot double: already doubled", g')) := by
  by_cases h1 : g.matchState.dice ≠ (0, 0)
  · rw [Backgammon.double, if_pos h1]
    exact ⟨⟨fun habs => by simp [Except.isOk, Except.toBool] at habs, fun hneg => absurd (Or.inl h1) hneg⟩,
      fun g' hg' => Except.noConfusion hg'⟩
  · by_cases h2 : g.matchState.cube_holder ≠ Player.centered ∧
        g.matchState.cube_holder ≠ g.matchState.player
    · rw [Backgammon.double, if_neg h1, if_pos h2]
      exact ⟨⟨fun habs => by simp [Except.isOk, Except.toBool] at habs,
        fun hneg => absurd (Or.inr (Or.inl h2)) hneg⟩,
        fun g' hg' => Except.noConfusion hg'⟩
    · by_cases h3 : g.matchState.double = true
      · rw [Backgammon.double, if_neg h1, if_neg h2, if_pos h3]
        exact ⟨⟨fun habs => by simp [Except.isOk, Except.toBool] at habs,
          fun hneg => absurd (Or.inr (Or.inr (Or.inl h3))) hneg⟩,
          fun g' hg' => Except.noConfusion hg'⟩
      · by_cases h4 : (if g.matchState.player = Player.zero then
            g.matchState.player_0_score else g.matchState.player_1_score) +
              g.matchState.cube_value ≥ g.matchState.length
        · rw [Backgammon.double, if_neg h1, if_neg h2, if_neg h3, if_pos h4]
          exact ⟨⟨fun habs => by simp [Except.isOk, Except.toBool] at habs,
            fun hneg => absurd (Or.inr (Or.inr (Or.inr (Or.inl h4)))) hneg⟩,
            fun g' hg' => Except.noConfusion hg'⟩
        · by_cases h5 : g.matchState.crawford = true
          · rw [Backgammon.double, if_neg h1, if_neg h2, if_neg h3, if_neg h4,
              if_pos h5]
            exact ⟨⟨fun habs => by simp [Except.isOk, Except.toBool] at habs,
              fun hneg => absurd (Or.inr (Or.inr (Or.inr (Or.inr h5)))) hneg⟩,
              fun g' hg' => Except.noConfusion hg'⟩
          · rw [Backgammon.double, if_neg h1, if_neg h2, if_neg h3, if_neg h4,
              if_neg h5]
            refine ⟨⟨fun _ => ?_, fun _ => rfl⟩, ?_⟩
            · intro habs
              rcases habs with h | h | h | h | h
              · exact h1 h
              · exact h2 h
              · exact h3 h
              · exact h4 h
              · exact h5 h
            · intro g' hg'
              injection hg' with hg'
              subst hg'
              refine ⟨rfl, rfl, rfl, ?_⟩
              rw [Backgammon.double]
              rw [if_neg (show ¬_ by simpa [Match.swap_turn] using h1)]
              rw [if_neg (show ¬_ by simpa [Match.swap_turn] using h2)]
              rw [if_pos (show _ by simp [Match.swap_turn])]

/-- Witness for C4 (amended): from the starting cube state (score 0,
length 3, cube 1, centered) `double()` succeeds, flips the turn, and a
second `double()` fails with the already-doubled error. -/
theorem c4_witness :
    (Backgammon.double
      { position := startingPosition,
        matchState :=
          { cube_value := 1, cube_holder := Player.centered, player := Player.zero,
            crawford := false, game_state := GameState.playing, turn := Player.zero,
            double := false, resign := Resign.none, dice := (0, 0), length := 3,
            player_0_score := 0, player_1_score := 0 } }).isOk = true ∧
    (∀ g', Backgammon.double
      { position := startingPosition,
        matchState :=
          { cube_value := 1, cube_holder := Player.centered, player := Player.zero,
            crawford := false, game_state := GameState.playing, turn := Player.zero,
            double := false, resign := Resign.none, dice := (0, 0), length := 3,
            player_0_score := 0, player_1_score := 0 } } = Except.ok g' →
      g'.matchState.double = true ∧
      Backgammon.double g' =
        Except.error ("Cannot double: already doubled", g')) := by
  constructor
  · exact (c4_double_spec _).1.mpr (by decide)
  · intro g' hg'
    have h := (c4_double_spec _).2 g' hg'
    exact ⟨h.1, h.2.2.2⟩

/-- Claim C7 — For every engine operation (`play`, `double`, `accept_double`,
`reject_double`, `resign`, `accept_resignation`, `reject_resignation`,
`roll`, `skip`) and every starting state, if the operation raises an error
then the state carried out of the raise (the `Match` and `Position` at the
moment the `BackgammonError` propagates) is identical to the state before
the call: every raise happens before any mutation. -/
theorem c7_errors_leave_state_unchanged
    (fresh : List (Nat × Nat)) (d : Nat × Nat) (g : Game)
    (moves : List (Option Nat × Option Nat)) (rt : Resign) (e : String) (g' : Game) :
    (Backgammon.play fresh g moves = Except.error (e, g') → g' = g) ∧
    (Backgammon.double g = Except.error (e, g') → g' = g) ∧
    (Backgammon.accept_double g = Except.error (e, g') → g' = g) ∧
    (Backgammon.reject_double fresh g = Except.error (e, g') → g' = g) ∧
    (Backgammon.resign g rt = Except.error (e, g') → g' = g) ∧
    (Backgammon.accept_resignation fresh g = Except.error (e, g') → g' = g) ∧
    (Backgammon.reject_resignation g = Except.error (e, g') → g' = g) ∧
    (Backgammon.roll d g = Except.error (e, g') → g' = g) ∧
    (Backgammon.skip g = Except.error (e, g') → g' = g) := by
  refine ⟨?_, ?_, ?_, ?_, ?_, ?_, ?_, ?_, ?_⟩ <;> intro h
  · unfold Backgammon.play at h
    (try simp only [] at h)
    split_ifs at h <;> first
      | exact Except.noConfusion h
      | (injection h with h1; injection h1 with h2 h3; exact h3.symm)
  · unfold Backgammon.double at h
    (try simp only [] at h)
    split_ifs at h <;> first
      | exact Except.noConfusion h
      | (injection h with h1; injection h1 with h2 h3; exact h3.symm)
  · unfold Backgammon.accept_double at h
    (try simp only [] at h)
    split_ifs at h <;> first
      | exact Except.noConfusion h
      | (injection h with h1; injection h1 with h2 h3; exact h3.symm)
  · unfold Backgammon.reject_double at h
    (try simp only [] at h)
    split_ifs at h <;> first
      | exact Except.noConfusion h
      | (injection h with h1; injection h1 with h2 h3; exact h3.symm)
  · unfold Backgammon.resign at h
    (try simp only [] at h)
    split_ifs at h <;> first
      | exact Except.noConfusion h
      | (injection h with h1; injection h1 with h2 h3; exact h3.symm)
  · unfold Backgammon.accept_resignation at h
    (try simp only [] at h)
    split_ifs at h <;> first
      | exact Except.noConfusion h
      | (injection h with h1; injection h1 with h2 h3; exact h3.symm)
  · unfold Backgammon.reject_resignation at h
    (try simp only [] at h)
    split_ifs at h <;> first
      | exact Except.noConfusion h
      | (injection h with h1; injection h1 with h2 h3; exact h3.symm)
  · unfold Backgammon.roll at h
    (try simp only [] at h)
    split_ifs at h <;> first
      | exact Except.noConfusion h
      | (injection h with h1; injection h1 with h2 h3; exact h3.symm)
  · unfold Backgammon.skip at h
    (try simp only [] at h)
    split_ifs at h <;> first
      | exact Except.noConfusion h
      | (injection h with h1; injection h1 with h2 h3; exact h3.symm)

/-- Witness for C7: `double()` with dice already rolled errors and carries
the unchanged state. -/
theorem c7_witness :
    Backgammon.double
        { position := startingPosition,
          matchState := { startingMatch with dice := (5, 2) } } =
      Except.error ("Cannot double: dice have been rolled",
        { position := startingPosition,
          matchState := { startingMatch with dice := (5, 2) } }) ∧
    ({ position := startingPosition,
       matchState := { startingMatch with dice := (5, 2) } } : Game) =
      { position := startingPosition,
        matchState := { startingMatch with dice := (5, 2) } } := by
  constructor
  · rfl
  · exact (c7_errors_leave_state_unchanged [] (0, 0) _ [] Resign.none _ _).2.1 (by rfl)

theorem mem_insertByKey (key : Play → Nat) (p q : Play) (l : List Play) :
    q ∈ insertByKey key p l ↔ q = p ∨ q ∈ l := by
  induction l with
  | nil => simp [insertByKey]
  | cons x t ih =>
    simp only [insertByKey]
    by_cases hc : key p ≤ key x
    · rw [if_pos hc]
      simp
    · rw [if_neg hc]
      simp only [List.mem_cons, ih]
      tauto

theorem mem_sortByKey (key : Play → Nat) (q : Play) (l : List Play) :
    q ∈ sortByKey key l ↔ q ∈ l := by
  induction l with
  | nil => simp [sortByKey]
  | cons x t ih => simp [sortByKey, mem_insertByKey, ih]

theorem mem_dedupRun (key : Play → Nat) (q prev : Play) (l : List Play)
    (h : q ∈ dedupRun key prev l) : q ∈ l := by
  induction l generalizing prev with
  | nil => simpa [dedupRun] using h
  | cons x t ih =>
    rw [dedupRun] at h
    by_cases hk : key x = key prev
    · rw [if_pos hk] at h
      exact List.mem_cons_of_mem _ (ih _ h)
    · rw [if_neg hk] at h
      rcases List.mem_cons.mp h with hqx | hq2
      · simp [hqx]
      · exact List.mem_cons_of_mem _ (ih _ hq2)

theorem mem_dedupAdj (key : Play → Nat) (q : Play) (l : List Play)
    (h : q ∈ dedupAdj key l) : q ∈ l := by
  match l with
  | [] => simpa [dedupAdj] using h
  | p :: rest =>
    rw [dedupAdj] at h
    rcases List.mem_cons.mp h with hqp | hq2
    · simp [hqp]
    · exact List.mem_cons_of_mem _ (mem_dedupRun key q p rest hq2)

theorem foldl_max_all_one {l : List Nat} (hne : l ≠ []) (h : ∀ x ∈ l, x = 1) :
    l.foldl Nat.max 0 = 1 := by
  have haux : ∀ t : List Nat, (∀ x ∈ t, x = 1) → t.foldl Nat.max 1 = 1 := by
    intro t
    induction t with
    | nil => intro _; rfl
    | cons y t' ih =>
      intro hy
      have h1 : y = 1 := hy y (by simp)
      subst h1
      simpa using ih fun x hx => hy x (by simp [hx])
  match l with
  | [] => exact absurd rfl hne
  | x :: t =>
    have h1 : x = 1 := h x (by simp)
    subst h1
    simpa using haux t fun x hx => h x (by simp [hx])

/-- Claim C6 — For every engine state with a non-double roll `(a, b)`, if
every play produced by the generation phase contains exactly one move,
then the returned list contains only plays whose single move consumed the
higher die value — unless no generated play used the higher value, in
which case no die filtering happens and all single-move plays are kept (up
to the usual deduplication by resulting position). -/
theorem c6_higher_die_rule (g : Game)
    (hnd : g.matchState.dice.1 ≠ g.matchState.dice.2)
    (hall : ∀ p ∈ genPhase g, p.moves.length = 1) :
    ((∃ p ∈ genPhase g,
        (p.moves.headD nullMove).pips
          = Nat.max g.matchState.dice.1 g.matchState.dice.2) →
      ∀ q ∈ generate_plays g,
        (q.moves.headD nullMove).pips
          = Nat.max g.matchState.dice.1 g.matchState.dice.2) ∧
    ((¬∃ p ∈ genPhase g,
        (p.moves.headD nullMove).pips
          = Nat.max g.matchState.dice.1 g.matchState.dice.2) →
      generate_plays g =
        dedupAdj (fun p => hashPos p.position)
          (sortByKey (fun p => hashPos p.position) (genPhase g))) := by
  have hdice : diceList g.matchState = [g.matchState.dice.1, g.matchState.dice.2] := by
    rw [diceList, if_neg hnd]
  have hpips : (diceList g.matchState).foldl Nat.max 0
      = Nat.max g.matchState.dice.1 g.matchState.dice.2 := by
    rw [hdice]
    simp [List.foldl, Nat.zero_max]
  by_cases hemp : genPhase g = []
  · constructor
    · intro hex
      rcases hex with ⟨p, hp, _⟩
      rw [hemp] at hp
      simp at hp
    · intro _
      rw [generate_plays, if_pos hemp, hemp]
      simp [sortByKey, dedupAdj]
  · have hmax : ((genPhase g).map fun p => p.moves.length).foldl Nat.max 0 = 1 := by
      refine foldl_max_all_one (by simpa using hemp) ?_
      intro x hx
      rcases List.mem_map.mp hx with ⟨p, hp, hxp⟩
      rw [← hxp]
      exact hall p hp
    constructor
    · intro hex
      intro q hq
      rcases hex with ⟨p, hp, hpmax⟩
      rw [generate_plays, if_neg hemp] at hq
      simp only [hmax, hpips] at hq
      have hfne : (genPhase g).filter (fun p =>
          (p.moves.headD nullMove).pips
            = Nat.max g.matchState.dice.1 g.matchState.dice.2) ≠ [] := by
        intro hnil
        have hno := List.filter_eq_nil_iff.mp hnil p hp
        simp only [decide_eq_true_eq] at hno
        exact hno hpmax
      rw [if_neg hfne] at hq
      have hq2 := mem_dedupAdj _ _ _ hq
      have hq3 := (mem_sortByKey _ _ _).mp hq2
      have := (List.mem_filter.mp hq3).2
      simpa using this
    · intro hnex
      rw [generate_plays, if_neg hemp]
      simp only [hmax, hpips]
      have hfnil : (genPhase g).filter (fun p =>
          (p.moves.headD nullMove).pips
            = Nat.max g.matchState.dice.1 g.matchState.dice.2) = [] := by
        rw [List.filter_eq_nil_iff]
        intro p hp
        simp only [decide_eq_true_eq]
        intro hcon
        exact hnex ⟨p, hp, hcon⟩
      rw [if_pos hfnil]
      simp

/-- The spec's §8 scenario for C6: non-double roll `(5, 2)`, a lone checker
on point 10 whose 5 is playable (to point 5) but whose 2 is blocked (point
8 holds two opponent checkers), and the follow-up 2 is blocked as well
(point 3): every generated play is a single move. -/
def c6Game : Game :=
  { position :=
      { board_points := [0, 0, 0, -2, 0, 0, 0, 0, -2, 0, 1, 0,
                         0, 0, 0, 0, 0, 0, 0, 0, 0, 0, 0, 0],
        player_bar := 0, player_off := 14, opponent_bar := 0, opponent_off := 11 },
    matchState :=
      { startingMatch with dice := (5, 2), game_state := GameState.playing } }

set_option maxRecDepth 100000 in
/-- Witness for C6: on `c6Game` the single returned play uses the higher
die, 5. -/
theorem c6_witness :
    (∀ q ∈ generate_plays c6Game, (q.moves.headD nullMove).pips
      = Nat.max c6Game.matchState.dice.1 c6Game.matchState.dice.2) ∧
    generate_plays c6Game ≠ [] := by
  constructor
  · exact (c6_higher_die_rule c6Game (by decide) (by decide)).1 (by decide)
  · decide

theorem sumPos_nonneg (l : List Int) : 0 ≤ sumPos l := by
  refine List.sum_nonneg ?_
  intro x hx
  rcases List.mem_map.mp hx with ⟨y, _, hy⟩
  rw [← hy]
  exact le_max_right _ _

theorem list_sum_nonpos {l : List Int} (h : ∀ x ∈ l, x ≤ 0) : l.sum ≤ 0 := by
  induction l with
  | nil => simp
  | cons a t ih =>
    have ha : a ≤ 0 := h a (by simp)
    have ht : t.sum ≤ 0 := ih fun x hx => h x (by simp [hx])
    rw [List.sum_cons]
    omega

theorem all_nonpos_of_sumPos_eq_zero {l : List Int} (h : sumPos l = 0) :
    ∀ x ∈ l, x ≤ 0 := by
  induction l with
  | nil => simp
  | cons a t ih =>
    have ha : 0 ≤ max a 0 := le_max_right _ _
    have ht : 0 ≤ sumPos t := sumPos_nonneg t
    have hsplit : max a 0 + sumPos t = 0 := by
      simpa [sumPos] using h
    have ha0 : max a 0 = 0 := by omega
    have ht0 : sumPos t = 0 := by omega
    intro x hx
    rcases List.mem_cons.mp hx with hxa | hxt
    · subst hxa
      exact (le_max_left x 0).trans (le_of_eq ha0)
    · exact ih ht0 x hxt

theorem sum_ne_zero_iff_exists_neg {l : List Int} (h : ∀ x ∈ l, x ≤ 0) :
    l.sum ≠ 0 ↔ ∃ x ∈ l, x < 0 := by
  induction l with
  | nil => simp
  | cons a t ih =>
    have ha : a ≤ 0 := h a (by simp)
    have ht : ∀ x ∈ t, x ≤ 0 := fun x hx => h x (by simp [hx])
    have htsum : t.sum ≤ 0 := list_sum_nonpos ht
    rw [List.sum_cons]
    constructor
    · intro hne
      by_cases haz : a < 0
      · exact ⟨a, by simp, haz⟩
      · have ha0 : a = 0 := by omega
        rcases (ih ht).mp (by rw [ha0] at hne; simpa using hne) with ⟨x, hx, hxneg⟩
        exact ⟨x, by simp [hx], hxneg⟩
    · rintro ⟨x, hx, hxneg⟩ hzero
      have ha0 : a = 0 := by omega
      have ht0 : t.sum = 0 := by omega
      rcases List.mem_cons.mp hx with hxa | hxt
      · subst hxa
        omega
      · exact (ih ht).mpr ⟨x, hxt, hxneg⟩ ht0

/-- Equivalence, for a validly conserved position with all 15 checkers
borne off, between "the opponent has a checker in the player's home
quadrant" and the code's test `sum(board_points[:6]) != 0`. -/
theorem opp_home_iff (np : Position)
    (hlen : np.board_points.length = 24)
    (hcons : np.player_off + np.player_bar + sumPos np.board_points = 15)
    (hbar : 0 ≤ np.player_bar)
    (hoff : np.player_off = 15) :
    (0 < np.opponent_bar ∨ ∃ i, i < 6 ∧ np.board_points.getD i 0 < 0) ↔
      (np.opponent_bar > 0 ∨
        (np.board_points.take POINTS_PER_QUADRANT).sum ≠ 0) := by
  have hpos : 0 ≤ sumPos np.board_points := sumPos_nonneg _
  have hsum0 : sumPos np.board_points = 0 := by omega
  have hall : ∀ x ∈ np.board_points, x ≤ 0 := all_nonpos_of_sumPos_eq_zero hsum0
  have htake : ∀ x ∈ np.board_points.take POINTS_PER_QUADRANT, x ≤ 0 :=
    fun x hx => hall x (List.mem_of_mem_take hx)
  have hiff2 := sum_ne_zero_iff_exists_neg htake
  have htlen : (np.board_points.take POINTS_PER_QUADRANT).length = 6 := by
    simp [List.length_take, hlen, POINTS_PER_QUADRANT]
  have hiff3 : (∃ i, i < 6 ∧ np.board_points.getD i 0 < 0) ↔
      ∃ x ∈ np.board_points.take POINTS_PER_QUADRANT, x < 0 := by
    constructor
    · rintro ⟨i, hi, hneg⟩
      have hilt : i < np.board_points.length := by omega
      have hit : i < (np.board_points.take POINTS_PER_QUADRANT).length := by omega
      refine ⟨(np.board_points.take POINTS_PER_QUADRANT)[i], List.getElem_mem hit, ?_⟩
      rw [List.getElem_take]
      rwa [List.getD_eq_getElem _ _ hilt] at hneg
    · rintro ⟨x, hx, hneg⟩
      rcases List.mem_iff_getElem.mp hx with ⟨i, hit, hxi⟩
      have hi6 : i < 6 := by omega
      have hilt : i < np.board_points.length := by omega
      refine ⟨i, hi6, ?_⟩
      rw [List.getD_eq_getElem _ _ hilt]
      rw [List.getElem_take] at hxi
      rw [hxi]
      exact hneg
  rw [hiff2, hiff3]

/-- Claim C5 — For every successful `play(moves)` (the resulting position is
among the generated legal plays) on a validly conserved board, if the
player's off count reaches 15 the game ends via `end_game` with
multiplier 3 when the opponent has zero checkers off and a checker on the
bar or in the player's home quadrant, multiplier 2 when the opponent has
zero checkers off and no such checker, and multiplier 1 when the opponent
has at least one checker off; if the off count is below 15 the turn ends
instead. -/
theorem c5_play_outcomes (fresh : List (Nat × Nat)) (g : Game)
    (moves : List (Option Nat × Option Nat)) (np : Position)
    (hnp : np = moves.foldl (fun pos sd => pos.apply_move sd.1 sd.2) g.position)
    (hmem : np ∈ (generate_plays g).map (fun play => play.position))
    (hlen : np.board_points.length = 24)
    (hcons : np.conserved)
    (hbar : 0 ≤ np.player_bar) :
    (np.player_off = 15 →
      (np.opponent_off = 0 →
        ((0 < np.opponent_bar ∨ ∃ i, i < 6 ∧ np.board_points.getD i 0 < 0) →
          Backgammon.play fresh g moves =
            Except.ok (end_game fresh { g with position := np } 3)) ∧
        (¬(0 < np.opponent_bar ∨ ∃ i, i < 6 ∧ np.board_points.getD i 0 < 0) →
          Backgammon.play fresh g moves =
            Except.ok (end_game fresh { g with position := np } 2))) ∧
      (np.opponent_off ≠ 0 →
        Backgammon.play fresh g moves =
          Except.ok (end_game fresh { g with position := np } 1))) ∧
    (np.player_off ≠ 15 →
      Backgammon.play fresh g moves =
        Except.ok (end_turn { g with position := np })) := by
  subst hnp
  have hcons1 := hcons.1
  constructor
  · intro hoff
    have hiff := opp_home_iff _ hlen hcons1 hbar hoff
    constructor
    · intro h0
      constructor
      · intro hc
        rw [Backgammon.play, if_pos hmem]
        simp only []
        rw [if_pos (show _ = CHECKERS from hoff), if_pos h0, if_pos (hiff.mp hc)]
      · intro hc
        have hnc := fun hcode => hc (hiff.mpr hcode)
        rw [Backgammon.play, if_pos hmem]
        simp only []
        rw [if_pos (show _ = CHECKERS from hoff), if_pos h0, if_neg hnc]
    · intro h0
      rw [Backgammon.play, if_pos hmem]
      simp only []
      rw [if_pos (show _ = CHECKERS from hoff), if_neg h0]
  · intro hoff
    rw [Backgammon.play, if_pos hmem]
    simp only []
    rw [if_neg (show ¬(_ = CHECKERS) from hoff)]

/-- A game one bear-off away from winning: one checker on the ace point,
14 borne off, dice `(1, 2)`, opponent already fully borne off. -/
def c5Game : Game :=
  { position :=
      { board_points := [1, 0, 0, 0, 0, 0, 0, 0, 0, 0, 0, 0,
                         0, 0, 0, 0, 0, 0, 0, 0, 0, 0, 0, 0],
        player_bar := 0, player_off := 14, opponent_bar := 0, opponent_off := 15 },
    matchState :=
      { startingMatch with dice := (1, 2), game_state := GameState.playing } }

/-- The position after bearing off the last checker of `c5Game`. -/
def c5np : Position :=
  { board_points := [0, 0, 0, 0, 0, 0, 0, 0, 0, 0, 0, 0,
                     0, 0, 0, 0, 0, 0, 0, 0, 0, 0, 0, 0],
    player_bar := 0, player_off := 15, opponent_bar := 0, opponent_off := 15 }

set_option maxRecDepth 100000 in
/-- Witness for C5: bearing off the last checker against an opponent with
15 checkers off ends the game with multiplier 1. -/
theorem c5_witness :
    Backgammon.play [] c5Game [(some 0, Option.none)] =
      Except.ok (end_game [] { c5Game with position := c5np } 1) := by
  exact ((c5_play_outcomes [] c5Game [(some 0, Option.none)] c5np (by rfl)
    (by decide) (by decide) (by decide) (by decide)).1 (by decide)).2 (by decide)

/-! ## Round-trip support lemmas for the position codec -/

theorem chunks8_chunk_le (l : List Bool) :
    ∀ c ∈ chunks8 l, c.length ≤ 8 := by
  suffices H : ∀ n, ∀ l : List Bool, l.length = n → ∀ c ∈ chunks8 l, c.length ≤ 8 from
    H l.length l rfl
  intro n
  induction n using Nat.strong_induction_on with
  | _ n ih =>
  intro l hn c hc
  by_cases hl : l = []
  · subst hl
    rw [chunks8] at hc
    simp at hc
  · rw [chunks8, if_neg hl] at hc
    rcases List.mem_cons.mp hc with hct | hcr
    · subst hct
      simp [List.length_take]
    · have hlen0 : l.length ≠ 0 := fun hz => hl (List.eq_nil_of_length_eq_zero hz)
      exact ih (l.drop 8).length (by simp; omega) _ rfl c hcr

theorem bytesFromKey_lt (l : List Bool) : ∀ b ∈ bytesFromKey l, b < 256 := by
  intro b hb
  rcases List.mem_map.mp hb with ⟨c, hc, hbc⟩
  have h8 := chunks8_chunk_le l c hc
  have := bitsToNatLE_lt c
  have hle : (2 : Nat) ^ c.length ≤ 2 ^ 8 := Nat.pow_le_pow_right (by norm_num) h8
  omega

theorem chunks8_length (l : List Bool) :
    (chunks8 l).length = (l.length + 7) / 8 := by
  suffices H : ∀ n, ∀ l : List Bool, l.length = n →
      (chunks8 l).length = (l.length + 7) / 8 from H l.length l rfl
  intro n
  induction n using Nat.strong_induction_on with
  | _ n ih =>
  intro l hn
  by_cases hl : l = []
  · subst hl
    rw [chunks8]
    simp
  · rw [chunks8, if_neg hl]
    have hlen0 : l.length ≠ 0 := fun hz => hl (List.eq_nil_of_length_eq_zero hz)
    have hrec := ih (l.drop 8).length (by simp; omega) _ rfl
    simp only [List.length_cons, hrec, List.length_drop]
    omega

theorem flatten_unary_length (cs : List Int) :
    ((cs.map unaryBits).flatten).length = (cs.map Int.toNat).sum + cs.length := by
  induction cs with
  | nil => simp
  | cons c t ih =>
    simp only [List.map_cons, List.flatten_cons, List.length_append, ih, unaryBits]
    simp
    omega

theorem splitCounts_replicate (m : Nat) (rest : List Bool) :
    splitCounts (List.replicate m true ++ false :: rest) = m :: splitCounts rest := by
  induction m with
  | zero => simp [splitCounts]
  | succ k ih =>
    rw [List.replicate_succ, List.cons_append, splitCounts, ih]

theorem splitCounts_unary (cs : List Int) (tail : List Bool) :
    splitCounts ((cs.map unaryBits).flatten ++ tail)
      = cs.map Int.toNat ++ splitCounts tail := by
  induction cs with
  | nil => simp
  | cons c t ih =>
    simp only [List.map_cons, List.flatten_cons, unaryBits, List.append_assoc,
      List.singleton_append, List.cons_append, List.nil_append]
    rw [splitCounts_replicate c.toNat ((t.map unaryBits).flatten ++ tail), ih]

theorem encode_pad2 (bs : List Nat) (h : bs.length % 3 = 1) :
    (b64encodeBytes bs).dropLast.dropLast ++ ['=', '='] = b64encodeBytes bs := by
  suffices H : ∀ n, ∀ bs : List Nat, bs.length = n → bs.length % 3 = 1 →
      (b64encodeBytes bs).dropLast.dropLast ++ ['=', '='] = b64encodeBytes bs from
    H bs.length bs rfl h
  intro n
  induction n using Nat.strong_induction_on with
  | _ n ih =>
  intro bs hn h
  match bs with
  | [] => simp at h
  | [b1] => rfl
  | [b1, b2] => simp at h
  | b1 :: b2 :: b3 :: rest =>
    have hr : rest.length % 3 = 1 := by simp at h ⊢; omega
    have hrec := ih rest.length (by simp at hn; omega) rest rfl hr
    have hne : b64encodeBytes rest ≠ [] := by
      match rest with
      | [] => simp at hr
      | [r1] => simp [b64encodeBytes]
      | [r1, r2] => simp [b64encodeBytes]
      | r1 :: r2 :: r3 :: rt => simp [b64encodeBytes]
    have hne2 : (b64encodeBytes rest).dropLast ≠ [] := by
      match rest with
      | [] => simp at hr
      | [r1] => simp [b64encodeBytes, List.dropLast]
      | [r1, r2] => simp [b64encodeBytes, List.dropLast]
      | r1 :: r2 :: r3 :: rt => simp [b64encodeBytes, List.dropLast]
    rw [b64encodeBytes]
    rw [show ∀ c1 c2 c3 c4 : Char, c1 :: c2 :: c3 :: c4 :: b64encodeBytes rest
        = [c1, c2, c3, c4] ++ b64encodeBytes rest from fun _ _ _ _ => rfl]
    rw [List.dropLast_append_of_ne_nil _ hne, List.dropLast_append_of_ne_nil _ hne2,
      List.append_assoc, hrec]

theorem int_toNat_sum (l : List Int) (h : ∀ x ∈ l, 0 ≤ x) :
    (((l.map Int.toNat).sum : Nat) : Int) = l.sum := by
  induction l with
  | nil => simp
  | cons a t ih =>
    have ha : 0 ≤ a := h a (by simp)
    have ht := ih fun x hx => h x (by simp [hx])
    simp only [List.map_cons, List.sum_cons, Nat.cast_add]
    rw [ht]
    omega

/-- Validity of a `Position` (§3): a 24-point board, non-negative counters
and the 15-checker conservation invariant for both sides. -/
def Position.valid (p : Position) : Prop :=
  p.board_points.length = 24 ∧ 0 ≤ p.player_bar ∧ 0 ≤ p.opponent_bar ∧
    0 ≤ p.player_off ∧ 0 ≤ p.opponent_off ∧ p.conserved

instance (p : Position) : Decidable p.valid := by
  unfold Position.valid
  infer_instance

theorem unmergePlayer_sum (bp : List Int) : (unmergePlayer bp).sum = sumPos bp := by
  unfold unmergePlayer sumPos
  congr 1
  refine List.map_congr_left ?_
  intro n _
  split_ifs <;> omega

theorem unmergeOpponent_sum (bp : List Int) : (unmergeOpponent bp).sum = sumNeg bp := by
  unfold unmergeOpponent sumNeg
  rw [show bp.reverse.map (fun n => if n > 0 then 0 else -n)
      = (bp.map fun n => if n > 0 then 0 else -n).reverse from
    (List.map_reverse _ _)]
  rw [List.sum_reverse]
  congr 1
  refine List.map_congr_left ?_
  intro n _
  split_ifs <;> omega

theorem pos_roundtrip (p : Position) (hv : p.valid) :
    posDecode (Position.encode p) = Except.ok p := by
  obtain ⟨bp, pb, po, ob, oo⟩ := p
  simp only [Position.valid, Position.conserved] at hv
  obtain ⟨hlen, hpb, hob, hpo, hoo, hcp, hco⟩ := hv
  -- abbreviations for the two unmerged halves
  have hA_len : (unmergeOpponent bp).length = 24 := by
    simp [unmergeOpponent, hlen]
  have hB_len : (unmergePlayer bp).length = 24 := by
    simp [unmergePlayer, hlen]
  have hcs_len : (checkersOf ⟨bp, pb, po, ob, oo⟩).length = 50 := by
    simp [checkersOf, hA_len, hB_len]
  have hA_nonneg : ∀ x ∈ unmergeOpponent bp, 0 ≤ x := by
    intro x hx
    rcases List.mem_map.mp hx with ⟨y, _, hy⟩
    rw [← hy]
    split_ifs <;> omega
  have hB_nonneg : ∀ x ∈ unmergePlayer bp, 0 ≤ x := by
    intro x hx
    rcases List.mem_map.mp hx with ⟨y, _, hy⟩
    rw [← hy]
    split_ifs <;> omega
  have hcs_nonneg : ∀ x ∈ checkersOf ⟨bp, pb, po, ob, oo⟩, 0 ≤ x := by
    intro x hx
    simp only [checkersOf, List.mem_append, List.mem_singleton] at hx
    rcases hx with ((hx | hx) | hx) | hx
    · exact hA_nonneg x hx
    · omega
    · exact hB_nonneg x hx
    · omega
  -- the total number of `1` bits is at most 30
  have hsum_cast := int_toNat_sum _ hcs_nonneg
  have hcs_sum : (checkersOf ⟨bp, pb, po, ob, oo⟩).sum
      = sumNeg bp + ob + sumPos bp + pb := by
    simp [checkersOf, unmergeOpponent_sum, unmergePlayer_sum]
    ring
  have hsumPos_nonneg : 0 ≤ sumPos bp := sumPos_nonneg bp
  have hS_le : ((checkersOf ⟨bp, pb, po, ob, oo⟩).map Int.toNat).sum ≤ 30 := by
    have h30 : (checkersOf ⟨bp, pb, po, ob, oo⟩).sum ≤ 30 := by
      rw [hcs_sum]
      omega
    omega
  -- the raw key fits in 80 bits
  have hraw_len : (((checkersOf ⟨bp, pb, po, ob, oo⟩).map unaryBits).flatten).length
      = ((checkersOf ⟨bp, pb, po, ob, oo⟩).map Int.toNat).sum + 50 := by
    rw [flatten_unary_length, hcs_len]
  have hkey_len : (keyFromCheckers (checkersOf ⟨bp, pb, po, ob, oo⟩)).length = 80 := by
    simp only [keyFromCheckers, ljust80, List.length_append, List.length_replicate]
    omega
  -- the packed bytes
  have hbytes_len : (bytesFromKey (keyFromCheckers (checkersOf ⟨bp, pb, po, ob, oo⟩))).length
      = 10 := by
    simp only [bytesFromKey, List.length_map, chunks8_length, hkey_len]
  have hbytes_lt := bytesFromKey_lt (keyFromCheckers (checkersOf ⟨bp, pb, po, ob, oo⟩))
  -- base64 round trip with reinstated padding
  have hdec : b64decodeBytes (Position.encode ⟨bp, pb, po, ob, oo⟩ ++ ['=', '='])
      = some (bytesFromKey (keyFromCheckers (checkersOf ⟨bp, pb, po, ob, oo⟩))) := by
    rw [Position.encode]
    rw [encode_pad2 _ (by rw [hbytes_len])]
    exact b64_roundtrip _ hbytes_lt
  -- unpacking the bytes restores the 80-bit key
  have hkey : keyFromBytes (bytesFromKey (keyFromCheckers (checkersOf ⟨bp, pb, po, ob, oo⟩)))
      = keyFromCheckers (checkersOf ⟨bp, pb, po, ob, oo⟩) := by
    rw [keyFromBytes_bytesFromKey, hkey_len]
    simp [padLen]
  -- splitting the key restores the 50 slot counts
  have hsplit : (splitCounts (keyFromCheckers (checkersOf ⟨bp, pb, po, ob, oo⟩))).take 50
      = (checkersOf ⟨bp, pb, po, ob, oo⟩).map Int.toNat := by
    rw [keyFromCheckers, ljust80, splitCounts_unary]
    refine List.take_left' ?_
    simp [hcs_len]
  -- evaluate the decoder
  rw [posDecode, hdec]
  simp only []
  rw [hkey, hsplit]
  rw [if_neg (by simp [hcs_len])]
  -- the slot list, slot by slot
  have hcsN : (checkersOf ⟨bp, pb, po, ob, oo⟩).map Int.toNat
      = (unmergeOpponent bp).map Int.toNat ++ [ob.toNat]
        ++ (unmergePlayer bp).map Int.toNat ++ [pb.toNat] := by
    simp [checkersOf]
  have hAN_len : ((unmergeOpponent bp).map Int.toNat).length = 24 := by
    simp [hA_len]
  have hBN_len : ((unmergePlayer bp).map Int.toNat).length = 24 := by
    simp [hB_len]
  have hdrop : (((checkersOf ⟨bp, pb, po, ob, oo⟩).map Int.toNat).drop 25).take 24
      = (unmergePlayer bp).map Int.toNat := by
    rw [hcsN]
    rw [show (unmergeOpponent bp).map Int.toNat ++ [ob.toNat]
        ++ (unmergePlayer bp).map Int.toNat ++ [pb.toNat]
      = ((unmergeOpponent bp).map Int.toNat ++ [ob.toNat])
        ++ ((unmergePlayer bp).map Int.toNat ++ [pb.toNat]) by
      simp]
    rw [List.drop_left' (by simp [hAN_len])]
    exact List.take_left' hBN_len
  have htake : ((checkersOf ⟨bp, pb, po, ob, oo⟩).map Int.toNat).take 24
      = (unmergeOpponent bp).map Int.toNat := by
    rw [hcsN]
    rw [show (unmergeOpponent bp).map Int.toNat ++ [ob.toNat]
        ++ (unmergePlayer bp).map Int.toNat ++ [pb.toNat]
      = (unmergeOpponent bp).map Int.toNat
        ++ ([ob.toNat] ++ ((unmergePlayer bp).map Int.toNat ++ [pb.toNat])) by
      simp]
    exact List.take_left' hAN_len
  have hgd49 : ((checkersOf ⟨bp, pb, po, ob, oo⟩).map Int.toNat).getD 49 0 = pb.toNat := by
    rw [hcsN]
    rw [show (unmergeOpponent bp).map Int.toNat ++ [ob.toNat]
        ++ (unmergePlayer bp).map Int.toNat ++ [pb.toNat]
      = ((unmergeOpponent bp).map Int.toNat ++ [ob.toNat]
        ++ (unmergePlayer bp).map Int.toNat) ++ [pb.toNat] by
      simp]
    rw [List.getD_append_right _ _ _ _ (by simp [hAN_len, hBN_len])]
    simp [hAN_len, hBN_len]
  have hgd24 : ((checkersOf ⟨bp, pb, po, ob, oo⟩).map Int.toNat).getD 24 0 = ob.toNat := by
    rw [hcsN]
    rw [show (unmergeOpponent bp).map Int.toNat ++ [ob.toNat]
        ++ (unmergePlayer bp).map Int.toNat ++ [pb.toNat]
      = (unmergeOpponent bp).map Int.toNat
        ++ ([ob.toNat] ++ ((unmergePlayer bp).map Int.toNat ++ [pb.toNat])) by
      simp]
    rw [List.getD_append_right _ _ _ _ (by simp [hAN_len])]
    simp [hAN_len]
  rw [hdrop, htake, hgd49, hgd24]
  -- the board points merge back
  have hmap1 : (unmergePlayer bp).map Int.toNat
      = bp.map fun n => (if n < 0 then 0 else n).toNat := by
    rw [unmergePlayer, List.map_map]
    rfl
  have hmap2 : ((unmergeOpponent bp).map Int.toNat).reverse
      = bp.map fun n => (if n > 0 then 0 else -n).toNat := by
    rw [unmergeOpponent, List.map_map, List.map_reverse, List.reverse_reverse]
    rfl
  have hboard : List.zipWith (fun (i j : Nat) => (i : Int) - (j : Int))
      ((unmergePlayer bp).map Int.toNat)
      (((unmergeOpponent bp).map Int.toNat).reverse) = bp := by
    rw [hmap1, hmap2, List.zipWith_map, List.zipWith_same]
    have hid : ∀ n : Int, (((if n < 0 then 0 else n).toNat : Nat) : Int)
        - (((if n > 0 then 0 else -n).toNat : Nat) : Int) = n := by
      intro n
      split_ifs <;> omega
    exact (List.map_congr_left fun n _ => hid n).trans (List.map_id bp)
  -- the sums recover the off counters
  have hBsum : (((unmergePlayer bp).map Int.toNat).sum : Int) = sumPos bp := by
    rw [int_toNat_sum _ hB_nonneg, unmergePlayer_sum]
  have hAsum : (((unmergeOpponent bp).map Int.toNat).sum : Int) = sumNeg bp := by
    rw [int_toNat_sum _ hA_nonneg, unmergeOpponent_sum]
  congr 1
  refine Position.mk.injEq _ _ _ _ _ _ _ _ _ _ ▸ ?_
  refine ⟨hboard, by omega, ?_, by omega, ?_⟩
  · -- player_off
    have : ((15 : Int) - (((unmergePlayer bp).map Int.toNat).sum : Int)
        - (pb.toNat : Int)) = po := by
      rw [hBsum]
      omega
    omega
  · -- opponent_off
    have : ((15 : Int) - (((unmergeOpponent bp).map Int.toNat).sum : Int)
        - ((ob.toNat : Int)).natAbs) = oo := by
      rw [hAsum]
      omega
    omega

/-! ## Round-trip for the match codec -/

theorem keyField_here (v w : Nat) (rest : List Bool) (h : v < 2 ^ w) :
    keyField (natToBitsLE v w ++ rest) 0 w = v := by
  rw [keyField, List.drop_zero, List.take_left' (length_natToBitsLE v w)]
  exact bitsToNatLE_natToBitsLE h

theorem keyField_skip (A l : List Bool) (j i w : Nat) (h : A.length + i = j) :
    keyField (A ++ l) j w = keyField l i w := by
  subst h
  rw [keyField, keyField, List.drop_append]

theorem fieldBits_eq {v w : Nat} (h : v < 2 ^ w) (hw : 1 ≤ w) :
    fieldBits v w = natToBitsLE v w := by
  unfold fieldBits pyFormatBW pyFormatB
  rw [List.reverse_append, List.reverse_reverse, List.reverse_replicate]
  have hlt : v < 2 ^ (Nat.log2 v + 1) := Nat.lt_log2_self
  have hle : Nat.log2 v + 1 ≤ w := by
    by_cases hv : v = 0
    · subst hv
      simp [Nat.log2]
      omega
    · have h1 : 2 ^ Nat.log2 v ≤ v := Nat.log2_self_le hv
      by_contra hcon
      push_neg at hcon
      have : 2 ^ w ≤ 2 ^ Nat.log2 v := Nat.pow_le_pow_right (by norm_num) (by omega)
      omega
  rw [← natToBitsLE_add_width (w - (Nat.log2 v + 1)) hlt]
  congr 1
  omega

theorem pyFormatB_bit {v : Nat} (h : v < 2) : pyFormatB v = natToBitsLE v 1 := by
  interval_cases v <;> simp [pyFormatB, Nat.log2, natToBitsLE]

/-- Validity of a `Match` for the codec: every field fits its §4.2
bit-width, `player` and `turn` are actual players (one bit), and
`cube_value` is an exact power of two with a 4-bit exponent. -/
def Match.valid (m : Match) : Prop :=
  (∃ e, e < 16 ∧ m.cube_value = 2 ^ e) ∧
    m.player ≠ Player.centered ∧ m.turn ≠ Player.centered ∧
    m.dice.1 < 8 ∧ m.dice.2 < 8 ∧
    m.length < 2 ^ 15 ∧ m.player_0_score < 2 ^ 15 ∧ m.player_1_score < 2 ^ 15

theorem player_ofNat_toNat (p : Player) : Player.ofNat? p.toNat = some p := by
  cases p <;> rfl

theorem gameState_ofNat_toNat (s : GameState) : GameState.ofNat? s.toNat = some s := by
  cases s <;> rfl

theorem resign_ofNat_toNat (r : Resign) : Resign.ofNat? r.toNat = some r := by
  cases r <;> rfl

theorem player_toNat_lt_two {p : Player} (h : p ≠ Player.centered) : p.toNat < 2 := by
  cases p <;> simp [Player.toNat] at h ⊢

theorem match_roundtrip (m : Match) (hv : m.valid) :
    matchDecode (Match.encode m) = Except.ok m := by
  obtain ⟨⟨e, he, hcube⟩, hpl, htn, hd1, hd2, hlen, hs0, hs1⟩ := hv
  -- the 66-bit key in fixed-width little-endian form
  have hlog : Nat.log2 m.cube_value = e := by
    rw [hcube]
    exact Nat.log2_two_pow
  have hkey : matchKeyBits m =
      natToBitsLE e 4 ++ (natToBitsLE m.cube_holder.toNat 2
        ++ (natToBitsLE m.player.toNat 1
        ++ (natToBitsLE (if m.crawford then 1 else 0) 1
        ++ (natToBitsLE m.game_state.toNat 3
        ++ (natToBitsLE m.turn.toNat 1
        ++ (natToBitsLE (if m.double then 1 else 0) 1
        ++ (natToBitsLE m.resign.toNat 2
        ++ (natToBitsLE m.dice.1 3
        ++ (natToBitsLE m.dice.2 3
        ++ (natToBitsLE m.length 15
        ++ (natToBitsLE m.player_0_score 15
        ++ natToBitsLE m.player_1_score 15))))))))))) := by
    rw [matchKeyBits]
    rw [fieldBits_eq (by rw [hlog]; omega) (by omega)]
    rw [fieldBits_eq (show m.cube_holder.toNat < 2 ^ 2 by cases m.cube_holder <;> decide)
      (by omega)]
    rw [pyFormatB_bit (player_toNat_lt_two hpl)]
    rw [pyFormatB_bit (show (if m.crawford then 1 else 0) < 2 by split_ifs <;> omega)]
    rw [fieldBits_eq (show m.game_state.toNat < 2 ^ 3 by cases m.game_state <;> decide)
      (by omega)]
    rw [pyFormatB_bit (player_toNat_lt_two htn)]
    rw [pyFormatB_bit (show (if m.double then 1 else 0) < 2 by split_ifs <;> omega)]
    rw [fieldBits_eq (show m.resign.toNat < 2 ^ 2 by cases m.resign <;> decide) (by omega)]
    rw [fieldBits_eq (show m.dice.1 < 2 ^ 3 by omega) (by omega)]
    rw [fieldBits_eq (show m.dice.2 < 2 ^ 3 by omega) (by omega)]
    rw [fieldBits_eq hlen (by omega)]
    rw [fieldBits_eq hs0 (by omega)]
    rw [fieldBits_eq hs1 (by omega)]
    rw [hlog]
    simp [List.append_assoc]
  have hklen : (matchKeyBits m).length = 66 := by
    rw [hkey]
    simp [length_natToBitsLE]
  -- bytes and base64
  have hblen : (bytesFromKey (matchKeyBits m)).length = 9 := by
    simp only [bytesFromKey, List.length_map, chunks8_length, hklen]
  have hdec : b64decodeBytes (Match.encode m) = some (bytesFromKey (matchKeyBits m)) := by
    rw [Match.encode]
    exact b64_roundtrip _ (bytesFromKey_lt _)
  -- unpacked key: the 66 bits followed by the 6 zero filler bits
  have hunpack : ((bytesFromKey (matchKeyBits m)).map (fun b => natToBitsLE b 8)).flatten
      = matchKeyBits m ++ List.replicate 6 false := by
    show keyFromBytes (bytesFromKey (matchKeyBits m)) = _
    rw [keyFromBytes_bytesFromKey, hklen]
    rfl
  rw [matchDecode, hdec]
  simp only []
  rw [hunpack]
  rw [if_neg (by simp [hklen])]
  -- peel the fields off the key one by one
  rw [hkey]
  rw [show (natToBitsLE e 4 ++ (natToBitsLE m.cube_holder.toNat 2
        ++ (natToBitsLE m.player.toNat 1
        ++ (natToBitsLE (if m.crawford then 1 else 0) 1
        ++ (natToBitsLE m.game_state.toNat 3
        ++ (natToBitsLE m.turn.toNat 1
        ++ (natToBitsLE (if m.double then 1 else 0) 1
        ++ (natToBitsLE m.resign.toNat 2
        ++ (natToBitsLE m.dice.1 3
        ++ (natToBitsLE m.dice.2 3
        ++ (natToBitsLE m.length 15
        ++ (natToBitsLE m.player_0_score 15
        ++ natToBitsLE m.player_1_score 15)))))))))))) ++ List.replicate 6 false
      = natToBitsLE e 4 ++ (natToBitsLE m.cube_holder.toNat 2
        ++ (natToBitsLE m.player.toNat 1
        ++ (natToBitsLE (if m.crawford then 1 else 0) 1
        ++ (natToBitsLE m.game_state.toNat 3
        ++ (natToBitsLE m.turn.toNat 1
        ++ (natToBitsLE (if m.double then 1 else 0) 1
        ++ (natToBitsLE m.resign.toNat 2
        ++ (natToBitsLE m.dice.1 3
        ++ (natToBitsLE m.dice.2 3
        ++ (natToBitsLE m.length 15
        ++ (natToBitsLE m.player_0_score 15
        ++ (natToBitsLE m.player_1_score 15 ++ List.replicate 6 false)))))))))))) by
    simp [List.append_assoc]]
  have he2 : e < 2 ^ 4 := by omega
  have hf1 : keyField (natToBitsLE e 4 ++ (natToBitsLE m.cube_holder.toNat 2 ++ (natToBitsLE m.player.toNat 1 ++ (natToBitsLE (if m.crawford then 1 else 0) 1 ++ (natToBitsLE m.game_state.toNat 3 ++ (natToBitsLE m.turn.toNat 1 ++ (natToBitsLE (if m.double then 1 else 0) 1 ++ (natToBitsLE m.resign.toNat 2 ++ (natToBitsLE m.dice.1 3 ++ (natToBitsLE m.dice.2 3 ++ (natToBitsLE m.length 15 ++ (natToBitsLE m.player_0_score 15 ++ (natToBitsLE m.player_1_score 15 ++ List.replicate 6 false))))))))))))) 0 4 = e := by
    exact keyField_here _ _ _ (by omega)
  have hf2 : keyField (natToBitsLE e 4 ++ (natToBitsLE m.cube_holder.toNat 2 ++ (natToBitsLE m.player.toNat 1 ++ (natToBitsLE (if m.crawford then 1 else 0) 1 ++ (natToBitsLE m.game_state.toNat 3 ++ (natToBitsLE m.turn.toNat 1 ++ (natToBitsLE (if m.double then 1 else 0) 1 ++ (natToBitsLE m.resign.toNat 2 ++ (natToBitsLE m.dice.1 3 ++ (natToBitsLE m.dice.2 3 ++ (natToBitsLE m.length 15 ++ (natToBitsLE m.player_0_score 15 ++ (natToBitsLE m.player_1_score 15 ++ List.replicate 6 false))))))))))))) 4 2 = m.cube_holder.toNat := by
    rw [keyField_skip (natToBitsLE e 4) _ 4 0 2 (by simp [length_natToBitsLE])]
    exact keyField_here _ _ _ (show m.cube_holder.toNat < 2 ^ 2 by cases m.cube_holder <;> decide)
  have hf3 : keyField (natToBitsLE e 4 ++ (natToBitsLE m.cube_holder.toNat 2 ++ (natToBitsLE m.player.toNat 1 ++ (natToBitsLE (if m.crawford then 1 else 0) 1 ++ (natToBitsLE m.game_state.toNat 3 ++ (natToBitsLE m.turn.toNat 1 ++ (natToBitsLE (if m.double then 1 else 0) 1 ++ (natToBitsLE m.resign.toNat 2 ++ (natToBitsLE m.dice.1 3 ++ (natToBitsLE m.dice.2 3 ++ (natToBitsLE m.length 15 ++ (natToBitsLE m.player_0_score 15 ++ (natToBitsLE m.player_1_score 15 ++ List.replicate 6 false))))))))))))) 6 1 = m.player.toNat := by
    rw [keyField_skip (natToBitsLE e 4) _ 6 2 1 (by simp [length_natToBitsLE])]
    rw [keyField_skip (natToBitsLE m.cube_holder.toNat 2) _ 2 0 1 (by simp [length_natToBitsLE])]
    exact keyField_here _ _ _ (show m.player.toNat < 2 ^ 1 by have := player_toNat_lt_two hpl; omega)
  have hf4 : keyField (natToBitsLE e 4 ++ (natToBitsLE m.cube_holder.toNat 2 ++ (natToBitsLE m.player.toNat 1 ++ (natToBitsLE (if m.crawford then 1 else 0) 1 ++ (natToBitsLE m.game_state.toNat 3 ++ (natToBitsLE m.turn.toNat 1 ++ (natToBitsLE (if m.double then 1 else 0) 1 ++ (natToBitsLE m.resign.toNat 2 ++ (natToBitsLE m.dice.1 3 ++ (natToBitsLE m.dice.2 3 ++ (natToBitsLE m.length 15 ++ (natToBitsLE m.player_0_score 15 ++ (natToBitsLE m.player_1_score 15 ++ List.replicate 6 false))))))))))))) 7 1 = (if m.crawford then 1 else 0) := by
    rw [keyField_skip (natToBitsLE e 4) _ 7 3 1 (by simp [length_natToBitsLE])]
    rw [keyField_skip (natToBitsLE m.cube_holder.toNat 2) _ 3 1 1 (by simp [length_natToBitsLE])]
    rw [keyField_skip (natToBitsLE m.player.toNat 1) _ 1 0 1 (by simp [length_natToBitsLE])]
    exact keyField_here _ _ _ (show (if m.crawford then 1 else 0) < 2 ^ 1 by split_ifs <;> omega)
  have hf5 : keyField (natToBitsLE e 4 ++ (natToBitsLE m.cube_holder.toNat 2 ++ (natToBitsLE m.player.toNat 1 ++ (natToBitsLE (if m.crawford then 1 else 0) 1 ++ (natToBitsLE m.game_state.toNat 3 ++ (natToBitsLE m.turn.toNat 1 ++ (natToBitsLE (if m.double then 1 else 0) 1 ++ (natToBitsLE m.resign.toNat 2 ++ (natToBitsLE m.dice.1 3 ++ (natToBitsLE m.dice.2 3 ++ (natToBitsLE m.length 15 ++ (natToBitsLE m.player_0_score 15 ++ (natToBitsLE m.player_1_score 15 ++ List.replicate 6 false))))))))))))) 8 3 = m.game_state.toNat := by
    rw [keyField_skip (natToBitsLE e 4) _ 8 4 3 (by simp [length_natToBitsLE])]
    rw [keyField_skip (natToBitsLE m.cube_holder.toNat 2) _ 4 2 3 (by simp [length_natToBitsLE])]
    rw [keyField_skip (natToBitsLE m.player.toNat 1) _ 2 1 3 (by simp [length_natToBitsLE])]
    rw [keyField_skip (natToBitsLE (if m.crawford then 1 else 0) 1) _ 1 0 3 (by simp [length_natToBitsLE])]
    exact keyField_here _ _ _ (show m.game_state.toNat < 2 ^ 3 by cases m.game_state <;> decide)
  have hf6 : keyField (natToBitsLE e 4 ++ (natToBitsLE m.cube_holder.toNat 2 ++ (natToBitsLE m.player.toNat 1 ++ (natToBitsLE (if m.crawford then 1 else 0) 1 ++ (natToBitsLE m.game_state.toNat 3 ++ (natToBitsLE m.turn.toNat 1 ++ (natToBitsLE (if m.double then 1 else 0) 1 ++ (natToBitsLE m.resign.toNat 2 ++ (natToBitsLE m.dice.1 3 ++ (natToBitsLE m.dice.2 3 ++ (natToBitsLE m.length 15 ++ (natToBitsLE m.player_0_score 15 ++ (natToBitsLE m.player_1_score 15 ++ List.replicate 6 false))))))))))))) 11 1 = m.turn.toNat := by
    rw [keyField_skip (natToBitsLE e 4) _ 11 7 1 (by simp [length_natToBitsLE])]
    rw [keyField_skip (natToBitsLE m.cube_holder.toNat 2) _ 7 5 1 (by simp [length_natToBitsLE])]
    rw [keyField_skip (natToBitsLE m.player.toNat 1) _ 5 4 1 (by simp [length_natToBitsLE])]
    rw [keyField_skip (natToBitsLE (if m.crawford then 1 else 0) 1) _ 4 3 1 (by simp [length_natToBitsLE])]
    rw [keyField_skip (natToBitsLE m.game_state.toNat 3) _ 3 0 1 (by simp [length_natToBitsLE])]
    exact keyField_here _ _ _ (show m.turn.toNat < 2 ^ 1 by have := player_toNat_lt_two htn; omega)
  have hf7 : keyField (natToBitsLE e 4 ++ (natToBitsLE m.cube_holder.toNat 2 ++ (natToBitsLE m.player.toNat 1 ++ (natToBitsLE (if m.crawford then 1 else 0) 1 ++ (natToBitsLE m.game_state.toNat 3 ++ (natToBitsLE m.turn.toNat 1 ++ (natToBitsLE (if m.double then 1 else 0) 1 ++ (natToBitsLE m.resign.toNat 2 ++ (natToBitsLE m.dice.1 3 ++ (natToBitsLE m.dice.2 3 ++ (natToBitsLE m.length 15 ++ (natToBitsLE m.player_0_score 15 ++ (natToBitsLE m.player_1_score 15 ++ List.replicate 6 false))))))))))))) 12 1 = (if m.double then 1 else 0) := by
    rw [keyField_skip (natToBitsLE e 4) _ 12 8 1 (by simp [length_natToBitsLE])]
    rw [keyField_skip (natToBitsLE m.cube_holder.toNat 2) _ 8 6 1 (by simp [length_natToBitsLE])]
    rw [keyField_skip (natToBitsLE m.player.toNat 1) _ 6 5 1 (by simp [length_natToBitsLE])]
    rw [keyField_skip (natToBitsLE (if m.crawford then 1 else 0) 1) _ 5 4 1 (by simp [length_natToBitsLE])]
    rw [keyField_skip (natToBitsLE m.game_state.toNat 3) _ 4 1 1 (by simp [length_natToBitsLE])]
    rw [keyField_skip (natToBitsLE m.turn.toNat 1) _ 1 0 1 (by simp [length_natToBitsLE])]
    exact keyField_here _ _ _ (show (if m.double then 1 else 0) < 2 ^ 1 by split_ifs <;> omega)
  have hf8 : keyField (natToBitsLE e 4 ++ (natToBitsLE m.cube_holder.toNat 2 ++ (natToBitsLE m.player.toNat 1 ++ (natToBitsLE (if m.crawford then 1 else 0) 1 ++ (natToBitsLE m.game_state.toNat 3 ++ (natToBitsLE m.turn.toNat 1 ++ (natToBitsLE (if m.double then 1 else 0) 1 ++ (natToBitsLE m.resign.toNat 2 ++ (natToBitsLE m.dice.1 3 ++ (natToBitsLE m.dice.2 3 ++ (natToBitsLE m.length 15 ++ (natToBitsLE m.player_0_score 15 ++ (natToBitsLE m.player_1_score 15 ++ List.replicate 6 false))))))))))))) 13 2 = m.resign.toNat := by
    rw [keyField_skip (natToBitsLE e 4) _ 13 9 2 (by simp [length_natToBitsLE])]
    rw [keyField_skip (natToBitsLE m.cube_holder.toNat 2) _ 9 7 2 (by simp [length_natToBitsLE])]
    rw [keyField_skip (natToBitsLE m.player.toNat 1) _ 7 6 2 (by simp [length_natToBitsLE])]
    rw [keyField_skip (natToBitsLE (if m.crawford then 1 else 0) 1) _ 6 5 2 (by simp [length_natToBitsLE])]
    rw [keyField_skip (natToBitsLE m.game_state.toNat 3) _ 5 2 2 (by simp [length_natToBitsLE])]
    rw [keyField_skip (natToBitsLE m.turn.toNat 1) _ 2 1 2 (by simp [length_natToBitsLE])]
    rw [keyField_skip (natToBitsLE (if m.double then 1 else 0) 1) _ 1 0 2 (by simp [length_natToBitsLE])]
    exact keyField_here _ _ _ (show m.resign.toNat < 2 ^ 2 by cases m.resign <;> decide)
  have hf9 : keyField (natToBitsLE e 4 ++ (natToBitsLE m.cube_holder.toNat 2 ++ (natToBitsLE m.player.toNat 1 ++ (natToBitsLE (if m.crawford then 1 else 0) 1 ++ (natToBitsLE m.game_state.toNat 3 ++ (natToBitsLE m.turn.toNat 1 ++ (natToBitsLE (if m.double then 1 else 0) 1 ++ (natToBitsLE m.resign.toNat 2 ++ (natToBitsLE m.dice.1 3 ++ (natToBitsLE m.dice.2 3 ++ (natToBitsLE m.length 15 ++ (natToBitsLE m.player_0_score 15 ++ (natToBitsLE m.player_1_score 15 ++ List.replicate 6 false))))))))))))) 15 3 = m.dice.1 := by
    rw [keyField_skip (natToBitsLE e 4) _ 15 11 3 (by simp [length_natToBitsLE])]
    rw [keyField_skip (natToBitsLE m.cube_holder.toNat 2) _ 11 9 3 (by simp [length_natToBitsLE])]
    rw [keyField_skip (natToBitsLE m.player.toNat 1) _ 9 8 3 (by simp [length_natToBitsLE])]
    rw [keyField_skip (natToBitsLE (if m.crawford then 1 else 0) 1) _ 8 7 3 (by simp [length_natToBitsLE])]
    rw [keyField_skip (natToBitsLE m.game_state.toNat 3) _ 7 4 3 (by simp [length_natToBitsLE])]
    rw [keyField_skip (natToBitsLE m.turn.toNat 1) _ 4 3 3 (by simp [length_natToBitsLE])]
    rw [keyField_skip (natToBitsLE (if m.double then 1 else 0) 1) _ 3 2 3 (by simp [length_natToBitsLE])]
    rw [keyField_skip (natToBitsLE m.resign.toNat 2) _ 2 0 3 (by simp [length_natToBitsLE])]
    exact keyField_here _ _ _ (by omega)
  have hf10 : keyField (natToBitsLE e 4 ++ (natToBitsLE m.cube_holder.toNat 2 ++ (natToBitsLE m.player.toNat 1 ++ (natToBitsLE (if m.crawford then 1 else 0) 1 ++ (natToBitsLE m.game_state.toNat 3 ++ (natToBitsLE m.turn.toNat 1 ++ (natToBitsLE (if m.double then 1 else 0) 1 ++ (natToBitsLE m.resign.toNat 2 ++ (natToBitsLE m.dice.1 3 ++ (natToBitsLE m.dice.2 3 ++ (natToBitsLE m.length 15 ++ (natToBitsLE m.player_0_score 15 ++ (natToBitsLE m.player_1_score 15 ++ List.replicate 6 false))))))))))))) 18 3 = m.dice.2 := by
    rw [keyField_skip (natToBitsLE e 4) _ 18 14 3 (by simp [length_natToBitsLE])]
    rw [keyField_skip (natToBitsLE m.cube_holder.toNat 2) _ 14 12 3 (by simp [length_natToBitsLE])]
    rw [keyField_skip (natToBitsLE m.player.toNat 1) _ 12 11 3 (by simp [length_natToBitsLE])]
    rw [keyField_skip (natToBitsLE (if m.crawford then 1 else 0) 1) _ 11 10 3 (by simp [length_natToBitsLE])]
    rw [keyField_skip (natToBitsLE m.game_state.toNat 3) _ 10 7 3 (by simp [length_natToBitsLE])]
    rw [keyField_skip (natToBitsLE m.turn.toNat 1) _ 7 6 3 (by simp [length_natToBitsLE])]
    rw [keyField_skip (natToBitsLE (if m.double then 1 else 0) 1) _ 6 5 3 (by simp [length_natToBitsLE])]
    rw [keyField_skip (natToBitsLE m.resign.toNat 2) _ 5 3 3 (by simp [length_natToBitsLE])]
    rw [keyField_skip (natToBitsLE m.dice.1 3) _ 3 0 3 (by simp [length_natToBitsLE])]
    exact keyField_here _ _ _ (by omega)
  have hf11 : keyField (natToBitsLE e 4 ++ (natToBitsLE m.cube_holder.toNat 2 ++ (natToBitsLE m.player.toNat 1 ++ (natToBitsLE (if m.crawford then 1 else 0) 1 ++ (natToBitsLE m.game_state.toNat 3 ++ (natToBitsLE m.turn.toNat 1 ++ (natToBitsLE (if m.double then 1 else 0) 1 ++ (natToBitsLE m.resign.toNat 2 ++ (natToBitsLE m.dice.1 3 ++ (natToBitsLE m.dice.2 3 ++ (natToBitsLE m.length 15 ++ (natToBitsLE m.player_0_score 15 ++ (natToBitsLE m.player_1_score 15 ++ List.replicate 6 false))))))))))))) 21 15 = m.length := by
    rw [keyField_skip (natToBitsLE e 4) _ 21 17 15 (by simp [length_natToBitsLE])]
    rw [keyField_skip (natToBitsLE m.cube_holder.toNat 2) _ 17 15 15 (by simp [length_natToBitsLE])]
    rw [keyField_skip (natToBitsLE m.player.toNat 1) _ 15 14 15 (by simp [length_natToBitsLE])]
    rw [keyField_skip (natToBitsLE (if m.crawford then 1 else 0) 1) _ 14 13 15 (by simp [length_natToBitsLE])]
    rw [keyField_skip (natToBitsLE m.game_state.toNat 3) _ 13 10 15 (by simp [length_natToBitsLE])]
    rw [keyField_skip (natToBitsLE m.turn.toNat 1) _ 10 9 15 (by simp [length_natToBitsLE])]
    rw [keyField_skip (natToBitsLE (if m.double then 1 else 0) 1) _ 9 8 15 (by simp [length_natToBitsLE])]
    rw [keyField_skip (natToBitsLE m.resign.toNat 2) _ 8 6 15 (by simp [length_natToBitsLE])]
    rw [keyField_skip (natToBitsLE m.dice.1 3) _ 6 3 15 (by simp [length_natToBitsLE])]
    rw [keyField_skip (natToBitsLE m.dice.2 3) _ 3 0 15 (by simp [length_natToBitsLE])]
    exact keyField_here _ _ _ hlen
  have hf12 : keyField (natToBitsLE e 4 ++ (natToBitsLE m.cube_holder.toNat 2 ++ (natToBitsLE m.player.toNat 1 ++ (natToBitsLE (if m.crawford then 1 else 0) 1 ++ (natToBitsLE m.game_state.toNat 3 ++ (natToBitsLE m.turn.toNat 1 ++ (natToBitsLE (if m.double then 1 else 0) 1 ++ (natToBitsLE m.resign.toNat 2 ++ (natToBitsLE m.dice.1 3 ++ (natToBitsLE m.dice.2 3 ++ (natToBitsLE m.length 15 ++ (natToBitsLE m.player_0_score 15 ++ (natToBitsLE m.player_1_score 15 ++ List.replicate 6 false))))))))))))) 36 15 = m.player_0_score := by
    rw [keyField_skip (natToBitsLE e 4) _ 36 32 15 (by simp [length_natToBitsLE])]
    rw [keyField_skip (natToBitsLE m.cube_holder.toNat 2) _ 32 30 15 (by simp [length_natToBitsLE])]
    rw [keyField_skip (natToBitsLE m.player.toNat 1) _ 30 29 15 (by simp [length_natToBitsLE])]
    rw [keyField_skip (natToBitsLE (if m.crawford then 1 else 0) 1) _ 29 28 15 (by simp [length_natToBitsLE])]
    rw [keyField_skip (natToBitsLE m.game_state.toNat 3) _ 28 25 15 (by simp [length_natToBitsLE])]
    rw [keyField_skip (natToBitsLE m.turn.toNat 1) _ 25 24 15 (by simp [length_natToBitsLE])]
    rw [keyField_skip (natToBitsLE (if m.double then 1 else 0) 1) _ 24 23 15 (by simp [length_natToBitsLE])]
    rw [keyField_skip (natToBitsLE m.resign.toNat 2) _ 23 21 15 (by simp [length_natToBitsLE])]
    rw [keyField_skip (natToBitsLE m.dice.1 3) _ 21 18 15 (by simp [length_natToBitsLE])]
    rw [keyField_skip (natToBitsLE m.dice.2 3) _ 18 15 15 (by simp [length_natToBitsLE])]
    rw [keyField_skip (natToBitsLE m.length 15) _ 15 0 15 (by simp [length_natToBitsLE])]
    exact keyField_here _ _ _ hs0
  have hf13 : keyField (natToBitsLE e 4 ++ (natToBitsLE m.cube_holder.toNat 2 ++ (natToBitsLE m.player.toNat 1 ++ (natToBitsLE (if m.crawford then 1 else 0) 1 ++ (natToBitsLE m.game_state.toNat 3 ++ (natToBitsLE m.turn.toNat 1 ++ (natToBitsLE (if m.double then 1 else 0) 1 ++ (natToBitsLE m.resign.toNat 2 ++ (natToBitsLE m.dice.1 3 ++ (natToBitsLE m.dice.2 3 ++ (natToBitsLE m.length 15 ++ (natToBitsLE m.player_0_score 15 ++ (natToBitsLE m.player_1_score 15 ++ List.replicate 6 false))))))))))))) 51 15 = m.player_1_score := by
    rw [keyField_skip (natToBitsLE e 4) _ 51 47 15 (by simp [length_natToBitsLE])]
    rw [keyField_skip (natToBitsLE m.cube_holder.toNat 2) _ 47 45 15 (by simp [length_natToBitsLE])]
    rw [keyField_skip (natToBitsLE m.player.toNat 1) _ 45 44 15 (by simp [length_natToBitsLE])]
    rw [keyField_skip (natToBitsLE (if m.crawford then 1 else 0) 1) _ 44 43 15 (by simp [length_natToBitsLE])]
    rw [keyField_skip (natToBitsLE m.game_state.toNat 3) _ 43 40 15 (by simp [length_natToBitsLE])]
    rw [keyField_skip (natToBitsLE m.turn.toNat 1) _ 40 39 15 (by simp [length_natToBitsLE])]
    rw [keyField_skip (natToBitsLE (if m.double then 1 else 0) 1) _ 39 38 15 (by simp [length_natToBitsLE])]
    rw [keyField_skip (natToBitsLE m.resign.toNat 2) _ 38 36 15 (by simp [length_natToBitsLE])]
    rw [keyField_skip (natToBitsLE m.dice.1 3) _ 36 33 15 (by simp [length_natToBitsLE])]
    rw [keyField_skip (natToBitsLE m.dice.2 3) _ 33 30 15 (by simp [length_natToBitsLE])]
    rw [keyField_skip (natToBitsLE m.length 15) _ 30 15 15 (by simp [length_natToBitsLE])]
    rw [keyField_skip (natToBitsLE m.player_0_score 15) _ 15 0 15 (by simp [length_natToBitsLE])]
    exact keyField_here _ _ _ hs1
  rw [hf1, hf2, hf3, hf4, hf5, hf6, hf7, hf8, hf9, hf10, hf11, hf12, hf13]
  rw [player_ofNat_toNat, player_ofNat_toNat, gameState_ofNat_toNat,
    player_ofNat_toNat, resign_ofNat_toNat]
  simp only []
  rw [show (2 : Nat) ^ e = m.cube_value from hcube.symm]
  rw [show decide ((if m.crawford = true then 1 else 0) = 1) = m.crawford from by
    cases m.crawford <;> simp]
  rw [show decide ((if m.double = true then 1 else 0) = 1) = m.double from by
    cases m.double <;> simp]

/-- Claim C1 — For every valid Position `p` (24 points, non-negative
counters, 15-checker conservation for both sides), decoding the identifier
produced by encoding `p` yields a Position equal to `p`; and for every
valid Match `m` (fields within their §4.2 bit-widths, `cube_value` an
exact power of two), decoding the identifier produced by encoding `m`
yields a Match equal to `m`. -/
theorem c1_roundtrip (p : Position) (m : Match) (hp : p.valid) (hm : m.valid) :
    posDecode (Position.encode p) = Except.ok p ∧
      matchDecode (Match.encode m) = Except.ok m :=
  ⟨pos_roundtrip p hp, match_roundtrip m hm⟩

/-- Witness for C1: round trip at the standard opening Position and the
starting Match. -/
theorem c1_witness :
    posDecode (Position.encode startingPosition) = Except.ok startingPosition ∧
      matchDecode (Match.encode startingMatch) = Except.ok startingMatch := by
  refine c1_roundtrip startingPosition startingMatch (by decide) ?_
  exact ⟨⟨0, by omega, rfl⟩, by decide, by decide, by decide, by decide,
    by decide, by decide, by decide⟩
